import Mathlib

/-!
# Field: the column-type abstraction of the storage engine

A shallow embedding of `be/src/storage/field.h`.

Conventions of the embedding:

* a byte is a `Fin 256` (an `unsigned char`);
* `cell_ptr()` of a cell is modelled by the bytes it gives access to: for a CHAR or
  VARCHAR cell these are the bytes `data[0 .. size)` of the `Slice` the pointer
  designates (so `size` is the length of the list), for the destination of `to_index`
  they are the bytes of the caller's buffer, otherwise the raw bytes of the value;
* an access outside the bytes a pointer designates (a read past a slice, a write past
  a buffer, a call through a null pointer) has no defined result: the operation
  returns `none`;
* sizes of in-memory slices are natural numbers; they are far below `2^31`, where the
  conversions between `size_t` and `int` keep the value. The differences that can
  leave the range (`_index_size - OLAP_STRING_MAX_BYTES`, `size - len`) are computed
  in `Int` and converted explicitly;
* the collaborators whose bodies are in other files (`TypeInfo`, `KeyCoder`,
  `AggregateInfo`, the registries `get_type_info`, `get_key_coder`,
  `get_aggregate_info`, `Slice::compare`, `HashUtil::hash`) are parameters; the
  registries of `TypeInfo` and `KeyCoder` are taken to resolve every type;
* a `Field` is an object all of whose sub-field pointers designate objects (`clone`
  calls through them); what the factory returns is a `FieldPtr`, which can be null
  and can hold null sub-field pointers;
* where the identity of objects matters (which objects a call creates and which it
  changes), objects lie on a `Heap`: a list of objects addressed by position, each
  with its sub-field pointers as addresses or null; `new` appends an object, and
  `Heap.read` gives the `Field` that lies at an address;
* `DCHECK` is an assertion of debug builds only; the embedding describes what the
  code computes, which the assertion does not change.
-/

namespace starrocks

/-- One byte of memory. -/
abbrev Byte := Fin 256

/-- The physical types `field.h` distinguishes; every other member of the `FieldType`
enumeration is `OTHER`, tagged with its enumeration value. -/
inductive FieldType where
  | OLAP_FIELD_TYPE_CHAR
  | OLAP_FIELD_TYPE_VARCHAR
  | OLAP_FIELD_TYPE_ARRAY
  | OLAP_FIELD_TYPE_DECIMAL32
  | OLAP_FIELD_TYPE_DECIMAL64
  | OLAP_FIELD_TYPE_DECIMAL128
  | OTHER (id : Nat)
  deriving DecidableEq, Repr

/-- The aggregation methods named in `FieldFactory::create`; `OUT_OF_RANGE` stands
for a value of the enumeration type that is none of its enumerators. -/
inductive FieldAggregationMethod where
  | OLAP_FIELD_AGGREGATION_NONE
  | OLAP_FIELD_AGGREGATION_SUM
  | OLAP_FIELD_AGGREGATION_MIN
  | OLAP_FIELD_AGGREGATION_MAX
  | OLAP_FIELD_AGGREGATION_REPLACE
  | OLAP_FIELD_AGGREGATION_REPLACE_IF_NOT_NULL
  | OLAP_FIELD_AGGREGATION_HLL_UNION
  | OLAP_FIELD_AGGREGATION_BITMAP_UNION
  | OLAP_FIELD_AGGREGATION_PERCENTILE_UNION
  | OLAP_FIELD_AGGREGATION_UNKNOWN
  | OUT_OF_RANGE (value : Nat)
  deriving DecidableEq, Repr

/-- Modelled from the spec: the constant `OLAP_STRING_MAX_BYTES` of
`storage/olap_define.h` (not part of the sources at hand), the length-prefix overhead
`PREFIX_BYTES` of a capped string, "2 bytes in the legacy format"; a 16-bit unsigned
constant, so that `_index_size - OLAP_STRING_MAX_BYTES` is computed in `int`. -/
def OLAP_STRING_MAX_BYTES : Nat := 2

/-- Conversion of an `int` to `size_t` (64 bits). -/
def to_size_t (i : Int) : Nat := (i % 2 ^ 64).toNat

/-- Conversion of an `int` to `unsigned int` (32 bits). -/
def to_uint32 (i : Int) : Nat := (i % 2 ^ 32).toNat

/-- A cell: the null flag and the bytes behind `cell_ptr()`. -/
structure Cell where
  is_null : Bool
  value : List Byte
  deriving DecidableEq, Repr

/-- What `allocate_value` hands out and `set_to_max` works on: the bytes of a value of
fixed size, or a `Slice` header with its size and the block its data pointer
designates. -/
inductive ValueStorage where
  | fixed (bytes : List Byte)
  | string (size : Nat) (data : List Byte)
  deriving DecidableEq, Repr

/-- The operations of the external `TypeInfo` that `Field` calls; their bodies are
not part of `field.h`, so they are parameters of the model. -/
structure TypeInfo where
  type : FieldType
  size : Nat
  cmp : List Byte → List Byte → Int
  equal : List Byte → List Byte → Bool
  hash_code : List Byte → Nat → Nat
  direct_copy : List Byte → List Byte → List Byte
  set_to_max : ValueStorage → ValueStorage

/-- The operations of the external `KeyCoder` that `Field` calls. -/
structure KeyCoder where
  encode_ascending : List Byte → Nat → List Byte → List Byte
  full_encode_ascending : List Byte → List Byte → List Byte
  decode_ascending : List Byte → Nat → Option (List Byte × List Byte)

/-- The operations of the external `AggregateInfo` that `Field` calls. -/
structure AggregateInfo where
  agg_method : FieldAggregationMethod
  init : Cell → List Byte → Bool → Cell
  update : Cell → Cell → Cell
  finalize : Cell → Cell

/-- The pool allocator: `fresh i` is the byte found at offset `i` of a block it hands
out (the block is not initialised by the allocator). -/
structure MemPool where
  fresh : Nat → Byte

/-- Result of `pool->allocate(n)`: a block of `n` bytes. -/
def MemPool.allocate (pool : MemPool) (n : Nat) : List Byte :=
  (List.range n).map pool.fresh

/-- The classes of `field.h`: `Field` and its five subclasses. -/
inductive Variant where
  | Field
  | CharField
  | VarcharField
  | BitmapAggField
  | HllAggField
  | PercentileAggField
  deriving DecidableEq, Repr

/-- The scalar data members of a `Field`. `_type_info` and `_key_coder` are set by
every constructor and by `clone`; `_agg_info` is a pointer that can be null;
`_index_size` is a `uint16_t` and `_length` a `uint32_t`. -/
structure FieldAttrs where
  variant : Variant
  _name : String
  _type_info : TypeInfo
  _key_coder : KeyCoder
  _agg_info : Option AggregateInfo
  _index_size : Fin 65536
  _length : Fin 4294967296
  _is_nullable : Bool

/-- A `Field` object: its data members and the sub-fields it owns
(`std::vector<std::unique_ptr<Field>>`, exclusive ownership, hence owned values). -/
inductive Field where
  | mk (attrs : FieldAttrs) (_sub_fields : List Field)

def Field.attrs : Field → FieldAttrs
  | .mk a _ => a

def Field._sub_fields : Field → List Field
  | .mk _ s => s

def Field.variant (f : Field) : Variant := f.attrs.variant

def Field.name (f : Field) : String := f.attrs._name

def Field.type_info (f : Field) : TypeInfo := f.attrs._type_info

def Field.key_coder (f : Field) : KeyCoder := f.attrs._key_coder

def Field.agg_info (f : Field) : Option AggregateInfo := f.attrs._agg_info

/-- `size()`. -/
def Field.size (f : Field) : Nat := f.attrs._type_info.size

/-- `length()`. -/
def Field.length (f : Field) : Nat := f.attrs._length.val

/-- `index_size()`. -/
def Field.index_size (f : Field) : Nat := f.attrs._index_size.val

/-- `type()`. -/
def Field.type (f : Field) : FieldType := f.attrs._type_info.type

/-- `is_nullable()`. -/
def Field.is_nullable (f : Field) : Bool := f.attrs._is_nullable

/-- `aggregation()`: calls through `_agg_info`. -/
def Field.aggregation (f : Field) : Option FieldAggregationMethod :=
  f.attrs._agg_info.map (fun a => a.agg_method)

/-- The C library `strncmp(l, r, n)`: compares at most `n` characters as unsigned
chars and stops after a NUL character; the result is the difference of the first
differing pair (the standard fixes only its sign). Needing a character past the end
of either argument is an access outside it. -/
def strncmp : List Byte → List Byte → Nat → Option Int
  | _, _, 0 => some 0
  | a :: l, b :: r, n + 1 =>
    if a ≠ b then some ((a.val : Int) - (b.val : Int))
    else if a = 0 then some 0
    else strncmp l r n
  | _, _, _ + 1 => none

/-- `memset(buf + off, c, n)` on a buffer of `buf.length` bytes. -/
def memset (buf : List Byte) (off : Nat) (c : Byte) (n : Nat) : Option (List Byte) :=
  if off + n ≤ buf.length then
    some (buf.take off ++ List.replicate n c ++ buf.drop (off + n))
  else none

/-- `memcpy(buf + off, src, n)`: reads `n` bytes of `src`, writes them at offset `off`
of `buf`. -/
def memcpy (buf : List Byte) (off : Nat) (src : List Byte) (n : Nat) : Option (List Byte) :=
  if off + n ≤ buf.length ∧ n ≤ src.length then
    some (buf.take off ++ src.take n ++ buf.drop (off + n))
  else none

/-- Modelled from the spec: `memory_copy` of `util/mem_util.hpp` (not part of the
sources at hand), the "raw byte copy" of `n` bytes that `to_index` uses to "copy that
many bytes". -/
def memory_copy (buf : List Byte) (off : Nat) (src : List Byte) (n : Nat) :
    Option (List Byte) :=
  memcpy buf off src n

/-- The two bytes of a `StringLengthType` (16 bits, little-endian) holding `n`. -/
def store_length (n : Nat) : List Byte :=
  [Fin.ofNat (n % 65536 % 256), Fin.ofNat (n % 65536 / 256)]

/-- `*reinterpret_cast<StringLengthType*>(buf) = n`. -/
def write_length (buf : List Byte) (n : Nat) : Option (List Byte) :=
  if 2 ≤ buf.length then some (store_length n ++ buf.drop 2) else none

/-- `compare(left, right)`: content only. -/
def Field.compare (f : Field) (left right : List Byte) : Int :=
  f.type_info.cmp left right

/-- `equal(lhs, rhs)`. -/
def Field.equal (f : Field) (lhs rhs : Cell) : Bool :=
  let l_null := lhs.is_null
  let r_null := rhs.is_null
  if l_null != r_null then false
  else if l_null then true
  else f.type_info.equal lhs.value rhs.value

/-- `compare_cell(lhs, rhs)`. -/
def Field.compare_cell (f : Field) (lhs rhs : Cell) : Int :=
  let l_null := lhs.is_null
  let r_null := rhs.is_null
  if l_null != r_null then (if l_null then -1 else 1)
  else if l_null then 0 else f.type_info.cmp lhs.value rhs.value

/-- `index_cmp(lhs, rhs)`. `slice_compare` is `Slice::compare` of `util/slice.h`,
whose body is not part of `field.h`. -/
def Field.index_cmp (slice_compare : List Byte → List Byte → Int) (f : Field)
    (lhs rhs : Cell) : Option Int :=
  let l_null := lhs.is_null
  let r_null := rhs.is_null
  if l_null != r_null then some (if l_null then -1 else 1)
  else if l_null then some 0
  else if f.type = FieldType.OLAP_FIELD_TYPE_VARCHAR then
    let l_size := lhs.value.length
    let r_size := rhs.value.length
    if r_size + OLAP_STRING_MAX_BYTES > f.index_size ∨
        l_size + OLAP_STRING_MAX_BYTES > f.index_size then
      let compare_size : Int := (f.index_size : Int) - (OLAP_STRING_MAX_BYTES : Int)
      let compare_size : Int := min (min compare_size (l_size : Int)) (r_size : Int)
      match strncmp lhs.value rhs.value (to_size_t compare_size) with
      | none => none
      | some res =>
        if res = 0 ∧ compare_size ≠ (f.index_size : Int) - (OLAP_STRING_MAX_BYTES : Int) then
          if l_size < r_size then some (-1)
          else if l_size > r_size then some 1
          else some 0
        else some res
    else some (slice_compare lhs.value rhs.value)
  else some (f.type_info.cmp lhs.value rhs.value)

/-- `to_index(dst, src)`: `dst.value` is the caller's buffer behind
`dst->mutable_cell_ptr()`. -/
def Field.to_index (f : Field) (dst src : Cell) : Option Cell :=
  let is_null := src.is_null
  if is_null then some { dst with is_null := true }
  else if f.type = FieldType.OLAP_FIELD_TYPE_VARCHAR then
    (memset dst.value 0 0 f.index_size).bind fun m =>
    let size := src.value.length
    let budget := to_size_t ((f.index_size : Int) - (OLAP_STRING_MAX_BYTES : Int))
    let copy_size := if size < budget then size else budget
    (write_length m copy_size).bind fun m =>
    (memory_copy m OLAP_STRING_MAX_BYTES src.value copy_size).bind fun m =>
    some { is_null := false, value := m }
  else if f.type = FieldType.OLAP_FIELD_TYPE_CHAR then
    (memset dst.value 0 0 f.index_size).bind fun m =>
    (memory_copy m 0 src.value f.index_size).bind fun m =>
    some { is_null := false, value := m }
  else
    (memory_copy dst.value 0 src.value f.size).bind fun m =>
    some { is_null := false, value := m }

/-- `consume(dst, src, src_null, mem_pool, agg_pool)`, virtual: `CharField` overrides
it, the other classes inherit `Field::consume`. For `CharField`, `src` is the content
`ptr[0 .. len)` of the `StringValue`, and the value of the destination cell is the
content of the slice it is given. -/
def Field.consume (f : Field) (dst : Cell) (src : List Byte) (src_null : Bool)
    (mem_pool : MemPool) : Option Cell :=
  match f.variant with
  | Variant.CharField =>
    if src_null then some { dst with is_null := true }
    else
      let len := src.length
      let size := f.length
      let data := mem_pool.allocate size
      (memcpy data 0 src len).bind fun data =>
      (memset data len 0 (to_size_t ((size : Int) - (len : Int)))).bind fun data =>
      some { is_null := false, value := data }
  | _ => f.agg_info.map fun a => a.init dst src src_null

/-- `add_sub_field(sub_field)`. -/
def Field.add_sub_field (f : Field) (sub_field : Field) : Field :=
  Field.mk f.attrs (f._sub_fields ++ [sub_field])

/-- `direct_copy(dst, src, pool)`: the null flag, then the content through
`TypeInfo::direct_copy` (destination bytes and source bytes to the new destination
bytes). -/
def Field.direct_copy (f : Field) (dst src : Cell) : Cell :=
  let is_null := src.is_null
  if is_null then { dst with is_null := true }
  else { is_null := false, value := f.type_info.direct_copy dst.value src.value }

/-- `agg_init(dst, src, mem_pool, agg_pool)`, virtual: `BitmapAggField`, `HllAggField`
and `PercentileAggField` override it and call through `_agg_info`; the other classes
inherit `Field::agg_init`. -/
def Field.agg_init (f : Field) (dst src : Cell) : Option Cell :=
  match f.variant with
  | Variant.BitmapAggField => f.agg_info.map fun a => a.init dst src.value src.is_null
  | Variant.HllAggField => f.agg_info.map fun a => a.init dst src.value false
  | Variant.PercentileAggField => f.agg_info.map fun a => a.init dst src.value false
  | _ => some (f.direct_copy dst src)

/-- `hash_code(cell, seed)`. `hash` is `HashUtil::hash` of `util/hash_util.hpp`, whose
body is not part of `field.h`; for a null cell it is given the one byte of the `bool`
`is_null`, which holds `true`. -/
def Field.hash_code (hash : List Byte → Nat → Nat) (f : Field) (cell : Cell) (seed : Nat) :
    Nat :=
  let is_null := cell.is_null
  if is_null then hash [1] seed
  else f.type_info.hash_code cell.value seed

/-- The header of a `Slice` as it lies in a row: the data pointer (an address, or
null) and the size. -/
structure Slice where
  data : Option Nat
  size : Nat
  deriving DecidableEq, Repr

/-- `get_variable_len()`, virtual: `CharField` and `VarcharField` override it; the
difference `_length - OLAP_STRING_MAX_BYTES` is computed in `unsigned int`. -/
def Field.get_variable_len (f : Field) : Nat :=
  match f.variant with
  | Variant.CharField => f.length
  | Variant.VarcharField => to_uint32 ((f.length : Int) - (OLAP_STRING_MAX_BYTES : Int))
  | _ => 0

/-- `allocate_memory(cell_ptr, variable_ptr)`, virtual: `slice` is the `Slice` header
at `cell_ptr`, `variable_ptr` an address; the result is the header afterwards and the
address returned. -/
def Field.allocate_memory (f : Field) (slice : Slice) (variable_ptr : Nat) : Slice × Nat :=
  match f.variant with
  | Variant.Field => (slice, variable_ptr)
  | Variant.CharField =>
    let slice : Slice := { data := some variable_ptr, size := f.length }
    (slice, variable_ptr + slice.size)
  | Variant.VarcharField =>
    let slice : Slice :=
      { data := some variable_ptr
        size := to_uint32 ((f.length : Int) - (OLAP_STRING_MAX_BYTES : Int)) }
    (slice, variable_ptr + slice.size)
  | Variant.BitmapAggField => ({ slice with data := none }, variable_ptr)
  | Variant.HllAggField => ({ slice with data := none }, variable_ptr)
  | Variant.PercentileAggField => ({ slice with data := none }, variable_ptr)

/-- `allocate_string_value(pool)`: a `Slice` of size `_length` over a block of as many
bytes. -/
def Field.allocate_string_value (f : Field) (pool : MemPool) : ValueStorage :=
  let size := f.length
  ValueStorage.string size (pool.allocate size)

/-- `allocate_value(pool)`, virtual: `CharField` and `VarcharField` override it. -/
def Field.allocate_value (f : Field) (pool : MemPool) : ValueStorage :=
  match f.variant with
  | Variant.CharField => f.allocate_string_value pool
  | Variant.VarcharField => f.allocate_string_value pool
  | _ => ValueStorage.fixed (pool.allocate f.type_info.size)

/-- `set_to_max(ch)`, virtual: `CharField` and `VarcharField` override it and take
`ch` for a `Slice`, whose size they set and whose block they fill with 0xFF; the other
classes call `TypeInfo::set_to_max`. -/
def Field.set_to_max (f : Field) (ch : ValueStorage) : Option ValueStorage :=
  match f.variant with
  | Variant.CharField =>
    match ch with
    | ValueStorage.string _ data =>
      let size := f.length
      (memset data 0 255 size).map fun data => ValueStorage.string size data
    | ValueStorage.fixed _ => none
  | Variant.VarcharField =>
    match ch with
    | ValueStorage.string _ data =>
      let size := to_uint32 ((f.length : Int) - (OLAP_STRING_MAX_BYTES : Int))
      (memset data 0 255 size).map fun data => ValueStorage.string size data
    | ValueStorage.fixed _ => none
  | _ => some (f.type_info.set_to_max ch)

/-- `encode_ascending(value, buf)`: the bytes appended to `buf`. -/
def Field.encode_ascending (f : Field) (value buf : List Byte) : List Byte :=
  f.key_coder.encode_ascending value f.index_size buf

/-- `full_encode_ascending(value, buf)`: the bytes appended to `buf`. -/
def Field.full_encode_ascending (f : Field) (value buf : List Byte) : List Byte :=
  f.key_coder.full_encode_ascending value buf

/-- `decode_ascending(encoded_key, cell_ptr, pool)`: on success the bytes stored
behind `cell_ptr` and what is left of `encoded_key`; no result on an error status. -/
def Field.decode_ascending (f : Field) (encoded_key : List Byte) :
    Option (List Byte × List Byte) :=
  f.key_coder.decode_ascending encoded_key f.index_size

mutual
/-- `clone()`, virtual: every class allocates a value-initialised object of its own
class (`new Field()`, `new CharField()`, ...: all scalar members zero, all pointers
null) and calls `Field::clone(local)`, which assigns `_type_info`, `_key_coder`,
`_name`, `_index_size`, `_is_nullable` and rebuilds `_sub_fields`; `_agg_info` and
`_length` are not assigned and keep their initial values. -/
def Field.clone : Field → Field
  | .mk a subs =>
    .mk { variant := a.variant
          _type_info := a._type_info
          _key_coder := a._key_coder
          _name := a._name
          _index_size := a._index_size
          _is_nullable := a._is_nullable
          _agg_info := none
          _length := 0 }
        (Field.clone_sub_fields subs)
/-- The loop of `Field::clone(Field*)` over `_sub_fields`. -/
def Field.clone_sub_fields : List Field → List Field
  | [] => []
  | f :: fs => f.clone :: Field.clone_sub_fields fs
end

mutual
/-- The classes of a field and of all the fields below it: the field first, then its
sub-fields in their order, each followed by its own. -/
def Field.classes : Field → List Variant
  | .mk a subs => a.variant :: Field.classes_of_sub_fields subs
/-- The classes of the fields of a list and of all the fields below them. -/
def Field.classes_of_sub_fields : List Field → List Variant
  | [] => []
  | f :: fs => f.classes ++ Field.classes_of_sub_fields fs
end

/-- Modelled from the spec: the scalar part of the column metadata (`TabletColumn` of
`storage/tablet_schema.h`, not part of the sources at hand), with the attributes
`field.h` reads through `name()`, `type()`, `is_key()`, `aggregation()`,
`is_nullable()`, `index_length()`, `length()`, `precision()` and `scale()`. -/
structure ColumnMeta where
  name : String
  type : FieldType
  is_key : Bool
  aggregation : FieldAggregationMethod
  is_nullable : Bool
  index_length : Nat
  length : Nat
  precision : Nat
  scale : Nat

/-- Modelled from the spec: a column with its sub-columns ("recursive construction for
nested (array) columns"; the metadata of a table is a tree). -/
inductive TabletColumn where
  | mk (info : ColumnMeta) (_sub_columns : List TabletColumn)

def TabletColumn.info : TabletColumn → ColumnMeta
  | .mk m _ => m

def TabletColumn._sub_columns : TabletColumn → List TabletColumn
  | .mk _ s => s

def TabletColumn.name (c : TabletColumn) : String := c.info.name

def TabletColumn.type (c : TabletColumn) : FieldType := c.info.type

def TabletColumn.is_key (c : TabletColumn) : Bool := c.info.is_key

def TabletColumn.aggregation (c : TabletColumn) : FieldAggregationMethod := c.info.aggregation

def TabletColumn.is_nullable (c : TabletColumn) : Bool := c.info.is_nullable

def TabletColumn.index_length (c : TabletColumn) : Nat := c.info.index_length

def TabletColumn.length (c : TabletColumn) : Nat := c.info.length

def TabletColumn.precision (c : TabletColumn) : Nat := c.info.precision

def TabletColumn.scale (c : TabletColumn) : Nat := c.info.scale

/-- `get_sub_column(i)`: no result when the column has no sub-column `i`. -/
def TabletColumn.get_sub_column (c : TabletColumn) (i : Nat) : Option TabletColumn :=
  c._sub_columns[i]?

/-- The registries and constructors of collaborators that `field.h` calls and whose
bodies are elsewhere: `get_type_info(column)`, `get_type_info(type)`,
`get_key_coder(type)`, `get_aggregate_info(method, type)` (which may give a null
pointer) and `std::make_shared<DecimalTypeInfo<type>>(precision, scale)`. -/
structure Registry where
  get_type_info_of_column : TabletColumn → TypeInfo
  get_type_info : FieldType → TypeInfo
  get_key_coder : FieldType → KeyCoder
  get_aggregate_info : FieldAggregationMethod → FieldType → Option AggregateInfo
  decimal_type_info : FieldType → Nat → Nat → TypeInfo

/-- The member initialisers shared by the constructors `Field(column)` and
`Field(column, type_info)` of the class `variant`; `index_length()` and `length()` are
converted to the 16-bit `_index_size` and the 32-bit `_length`. The `DCHECK` of
`Field(column)` that the type is no decimal is a debug-build assertion and leaves the
object as it is. -/
def FieldAttrs.of_column (env : Registry) (variant : Variant) (column : TabletColumn)
    (type_info : TypeInfo) : FieldAttrs :=
  { variant := variant
    _name := column.name
    _type_info := type_info
    _key_coder := env.get_key_coder column.type
    _agg_info := env.get_aggregate_info column.aggregation column.type
    _index_size := Fin.ofNat column.index_length
    _length := Fin.ofNat column.length
    _is_nullable := column.is_nullable }

/-- What a `Field*` handed out by the factory designates: nothing (a null pointer), or
an object whose sub-field pointers are of the same kind. -/
inductive FieldPtr where
  | nullptr
  | object (attrs : FieldAttrs) (_sub_fields : List FieldPtr)

/-- `new V(column)` for a class `V` built by `Field(column)`: no sub-fields. -/
def FieldPtr.new_field (env : Registry) (variant : Variant) (column : TabletColumn) :
    FieldPtr :=
  FieldPtr.object
    (FieldAttrs.of_column env variant column (env.get_type_info_of_column column)) []

/-- `new Field(column, std::make_shared<DecimalTypeInfo<type>>(precision, scale))`. -/
def FieldPtr.new_decimal_field (env : Registry) (column : TabletColumn) : FieldPtr :=
  FieldPtr.object
    (FieldAttrs.of_column env Variant.Field column
      (env.decimal_type_info column.type column.precision column.scale)) []

/-- `add_sub_field` on the object a non-null pointer designates. -/
def FieldPtr.add_sub_field : FieldPtr → FieldPtr → Option FieldPtr
  | .nullptr, _ => none
  | .object a subs, sub_field => some (.object a (subs ++ [sub_field]))

mutual
/-- `FieldFactory::create(column)`: `some p` when it returns the pointer `p`, no result
when it needs a sub-column the column does not have. -/
def FieldFactory.create (env : Registry) : TabletColumn → Option FieldPtr
  | .mk m subs =>
    if m.is_key then
      match m.type with
      | FieldType.OLAP_FIELD_TYPE_CHAR =>
        some (FieldPtr.new_field env Variant.CharField (.mk m subs))
      | FieldType.OLAP_FIELD_TYPE_VARCHAR =>
        some (FieldPtr.new_field env Variant.VarcharField (.mk m subs))
      | FieldType.OLAP_FIELD_TYPE_ARRAY =>
        (FieldFactory.create_sub_column_0 env subs).bind fun item_field =>
        (FieldPtr.new_field env Variant.Field (.mk m subs)).add_sub_field item_field
      | FieldType.OLAP_FIELD_TYPE_DECIMAL32 =>
        some (FieldPtr.new_decimal_field env (.mk m subs))
      | FieldType.OLAP_FIELD_TYPE_DECIMAL64 =>
        some (FieldPtr.new_decimal_field env (.mk m subs))
      | FieldType.OLAP_FIELD_TYPE_DECIMAL128 =>
        some (FieldPtr.new_decimal_field env (.mk m subs))
      | FieldType.OTHER _ => some (FieldPtr.new_field env Variant.Field (.mk m subs))
    else
      match m.aggregation with
      | FieldAggregationMethod.OLAP_FIELD_AGGREGATION_NONE
      | FieldAggregationMethod.OLAP_FIELD_AGGREGATION_SUM
      | FieldAggregationMethod.OLAP_FIELD_AGGREGATION_MIN
      | FieldAggregationMethod.OLAP_FIELD_AGGREGATION_MAX
      | FieldAggregationMethod.OLAP_FIELD_AGGREGATION_REPLACE
      | FieldAggregationMethod.OLAP_FIELD_AGGREGATION_REPLACE_IF_NOT_NULL =>
        match m.type with
        | FieldType.OLAP_FIELD_TYPE_CHAR =>
          some (FieldPtr.new_field env Variant.CharField (.mk m subs))
        | FieldType.OLAP_FIELD_TYPE_VARCHAR =>
          some (FieldPtr.new_field env Variant.VarcharField (.mk m subs))
        | FieldType.OLAP_FIELD_TYPE_ARRAY =>
          (FieldFactory.create_sub_column_0 env subs).bind fun item_field =>
          (FieldPtr.new_field env Variant.Field (.mk m subs)).add_sub_field item_field
        | FieldType.OLAP_FIELD_TYPE_DECIMAL32 =>
          some (FieldPtr.new_decimal_field env (.mk m subs))
        | FieldType.OLAP_FIELD_TYPE_DECIMAL64 =>
          some (FieldPtr.new_decimal_field env (.mk m subs))
        | FieldType.OLAP_FIELD_TYPE_DECIMAL128 =>
          some (FieldPtr.new_decimal_field env (.mk m subs))
        | FieldType.OTHER _ => some (FieldPtr.new_field env Variant.Field (.mk m subs))
      | FieldAggregationMethod.OLAP_FIELD_AGGREGATION_HLL_UNION =>
        some (FieldPtr.new_field env Variant.HllAggField (.mk m subs))
      | FieldAggregationMethod.OLAP_FIELD_AGGREGATION_BITMAP_UNION =>
        some (FieldPtr.new_field env Variant.BitmapAggField (.mk m subs))
      | FieldAggregationMethod.OLAP_FIELD_AGGREGATION_PERCENTILE_UNION =>
        some (FieldPtr.new_field env Variant.PercentileAggField (.mk m subs))
      | FieldAggregationMethod.OLAP_FIELD_AGGREGATION_UNKNOWN => some FieldPtr.nullptr
      | FieldAggregationMethod.OUT_OF_RANGE _ => some FieldPtr.nullptr
/-- `FieldFactory::create(column.get_sub_column(0))`, on the sub-columns of `column`. -/
def FieldFactory.create_sub_column_0 (env : Registry) : List TabletColumn → Option FieldPtr
  | [] => none
  | sub_column :: _ => FieldFactory.create env sub_column
end

/-- Modelled from the spec: the `Status` a fallible operation returns (`common/status.h`
is not part of the sources at hand): OK, or an error. -/
inductive Status where
  | OK
  | Error
  deriving DecidableEq, Repr

/-- `convert_to(type, output)`: the status returned and the field stored in `output`. -/
def Field.convert_to (env : Registry) (f : Field) (type : FieldType) : Status × Field :=
  let new_field := f.clone
  let type_info := env.get_type_info type
  let new_field : Field :=
    Field.mk
      { new_field.attrs with
        _type_info := type_info
        _key_coder := env.get_key_coder type
        _index_size := Fin.ofNat type_info.size }
      new_field._sub_fields
  (Status.OK, new_field)

/-- The pointer is null. -/
def FieldPtr.is_null : FieldPtr → Bool
  | .nullptr => true
  | .object _ _ => false

/-- The class of the object a pointer designates. -/
def FieldPtr.variant : FieldPtr → Option Variant
  | .nullptr => none
  | .object a _ => some a.variant

/-- The sub-field pointers of the object a pointer designates. -/
def FieldPtr.sub_fields : FieldPtr → List FieldPtr
  | .nullptr => []
  | .object _ subs => subs

mutual
/-- The pointer designates a `Field` all of whose sub-field pointers, at every depth,
designate a `Field`. -/
def FieldPtr.valid : FieldPtr → Bool
  | .nullptr => false
  | .object _ subs => FieldPtr.all_valid subs
/-- Every pointer of the list is valid. -/
def FieldPtr.all_valid : List FieldPtr → Bool
  | [] => true
  | p :: ps => p.valid && FieldPtr.all_valid ps
end

mutual
/-- The column carries the sub-columns the factory asks for: an ARRAY column has a
sub-column 0, and so has every ARRAY column met by going down the sub-columns 0. -/
def TabletColumn.has_element_columns : TabletColumn → Bool
  | .mk m subs =>
    if m.type = FieldType.OLAP_FIELD_TYPE_ARRAY then
      TabletColumn.sub_column_0_has_element_columns subs
    else true
/-- The list has a first column, which carries the sub-columns the factory asks for. -/
def TabletColumn.sub_column_0_has_element_columns : List TabletColumn → Bool
  | [] => false
  | c :: _ => c.has_element_columns
end

/-- Modelled from the spec: `AggregateInfo::init` of an aggregate-state method
(BITMAP_UNION, HLL_UNION, PERCENTILE_UNION; `storage/aggregate_func.h` is not part of
the sources at hand). Such columns "are defined to always hold a present value; their
null flag input is ignored on ingest"; `state src` stands for the aggregate object
built from the raw source. -/
def aggregate_state_init (state : List Byte → List Byte) (_dst : Cell) (src : List Byte)
    (_src_null : Bool) : Cell :=
  { is_null := false, value := state src }

/-- An address of the heap. -/
abbrev Addr := Nat

/-- A `Field` object as it lies in the heap: its scalar members, and `_sub_fields` as
the vector of pointers it is, each an address or null. -/
structure FieldObject where
  attrs : FieldAttrs
  _sub_fields : List (Option Addr)

/-- The heap: the object at address `i` is the element `i`; `new` puts its object at
the next address. -/
abbrev Heap := List FieldObject

/-- `add_sub_field(sub_field)` on the object at `this`: the object is changed in
place. -/
def Heap.add_sub_field (h : Heap) (this : Addr) (sub_field : Option Addr) : Option Heap :=
  match h[this]? with
  | none => none
  | some obj => some (h.set this { obj with _sub_fields := obj._sub_fields ++ [sub_field] })

/-- The scalar members of the object that `clone` builds: those that
`Field::clone(Field*)` assigns, and the initial null and 0 for `_agg_info` and
`_length`. -/
def FieldAttrs.cloned (a : FieldAttrs) : FieldAttrs :=
  { variant := a.variant
    _type_info := a._type_info
    _key_coder := a._key_coder
    _name := a._name
    _index_size := a._index_size
    _is_nullable := a._is_nullable
    _agg_info := none
    _length := 0 }

/-- The loop of `Field::clone(Field*)` on the heap: for every pointer `f` of
`_sub_fields`, `item = f->clone()` and `other->add_sub_field(item)`; `clone` is the
virtual call. A null `f` has no defined result. -/
def Heap.clone_sub_fields (clone : Heap → Addr → Option (Heap × Addr)) (other : Addr) :
    Heap → List (Option Addr) → Option Heap
  | h, [] => some h
  | _, none :: _ => none
  | h, some f :: rest =>
    match clone h f with
    | none => none
    | some (h, item) =>
      match Heap.add_sub_field h other (some item) with
      | none => none
      | some h => Heap.clone_sub_fields clone other h rest

/-- `clone()` on the heap, for the object at `this`: `local = new V()` of the class of
the object, then `Field::clone(local)`; the result is the heap afterwards and the
address `local`. The first argument bounds the depth of the calls. -/
def Heap.clone : Nat → Heap → Addr → Option (Heap × Addr)
  | 0, _, _ => none
  | fuel + 1, h, this =>
    match h[this]? with
    | none => none
    | some obj =>
      let local_field := h.length
      let h := h ++ [{ attrs := obj.attrs.cloned, _sub_fields := [] }]
      match Heap.clone_sub_fields (Heap.clone fuel) local_field h obj._sub_fields with
      | none => none
      | some h => some (h, local_field)

/-- The fields that a list of pointers designates, none of them null. -/
def Heap.read_all (read : Addr → Option Field) : List (Option Addr) → Option (List Field)
  | [] => some []
  | none :: _ => none
  | some p :: rest =>
    match read p with
    | none => none
    | some t => (Heap.read_all read rest).map fun ts => t :: ts

/-- The field at address `a` with all the fields below it, as a value: defined when
the objects reached from `a` lie at addresses from `floor` on, no pointer among them
is null, and they are fewer than `n` deep. -/
def Heap.read (floor : Addr) : Nat → Heap → Addr → Option Field
  | 0, _, _ => none
  | n + 1, h, a =>
    if a < floor then none
    else
      match h[a]? with
      | none => none
      | some obj =>
        (Heap.read_all (Heap.read floor n h) obj._sub_fields).map fun ts =>
          Field.mk obj.attrs ts

/-- Three-way byte-wise comparison of two byte strings as unsigned bytes, the shorter
one first when it is an initial segment of the other. -/
def bytewise_cmp : List Byte → List Byte → Int
  | [], [] => 0
  | [], _ :: _ => -1
  | _ :: _, [] => 1
  | a :: l, b :: r => if a < b then -1 else if b < a then 1 else bytewise_cmp l r

/-- What the specification says a short-key cell of a capped string keeps of a value:
its first `min(len, index_size - 2)` bytes. -/
def spec_index_content (index_size : Nat) (v : List Byte) : List Byte :=
  v.take (min v.length (index_size - 2))

/-- The ordering the specification gives to truncated short-key cells: their contents
compared byte-wise as unsigned bytes, the shorter one first on a common initial
segment. -/
def spec_index_order (index_size : Nat) (a b : List Byte) : Int :=
  bytewise_cmp (spec_index_content index_size a) (spec_index_content index_size b)

/-- A `TypeInfo` instance for examples: 16-byte values compared byte-wise. -/
def sample_type_info (t : FieldType) : TypeInfo :=
  { type := t
    size := 16
    cmp := bytewise_cmp
    equal := fun a b => decide (a = b)
    hash_code := fun v seed => seed + v.length
    direct_copy := fun _ src => src
    set_to_max := fun v => v }

/-- A `KeyCoder` instance for examples: the encoding is the value itself. -/
def sample_key_coder : KeyCoder :=
  { encode_ascending := fun v n buf => buf ++ v.take n
    full_encode_ascending := fun v buf => buf ++ v
    decode_ascending := fun enc n =>
      if n ≤ enc.length then some (enc.take n, enc.drop n) else none }

/-- An `AggregateInfo` instance for examples: `init` stores the source. -/
def sample_agg_info (m : FieldAggregationMethod) : AggregateInfo :=
  { agg_method := m
    init := fun _ src src_null => { is_null := src_null, value := src }
    update := fun dst _ => dst
    finalize := fun dst => dst }

/-- A field without sub-fields for examples, as the constructor `Field(column)` builds
it from a column of the given type, index length and length. -/
def sample_field (v : Variant) (t : FieldType) (index_size length : Nat) : Field :=
  Field.mk
    { variant := v
      _name := "c0"
      _type_info := sample_type_info t
      _key_coder := sample_key_coder
      _agg_info := some (sample_agg_info FieldAggregationMethod.OLAP_FIELD_AGGREGATION_NONE)
      _index_size := Fin.ofNat index_size
      _length := Fin.ofNat length
      _is_nullable := true }
    []

/-- Registries for examples, built from the instances above; the decimal `TypeInfo`
has the size `precision + scale`. -/
def sample_registry : Registry :=
  { get_type_info_of_column := fun c => sample_type_info c.type
    get_type_info := sample_type_info
    get_key_coder := fun _ => sample_key_coder
    get_aggregate_info := fun m _ => some (sample_agg_info m)
    decimal_type_info := fun t precision scale =>
      { sample_type_info t with size := precision + scale } }

/-- A column for examples: index length 4, length 4, precision 9, scale 2. -/
def sample_column (t : FieldType) (is_key : Bool) (m : FieldAggregationMethod)
    (sub_columns : List TabletColumn) : TabletColumn :=
  TabletColumn.mk
    { name := "c0"
      type := t
      is_key := is_key
      aggregation := m
      is_nullable := true
      index_length := 4
      length := 4
      precision := 9
      scale := 2 }
    sub_columns

/-- An `AggregateInfo` of BITMAP_UNION for examples, with the modelled `init`; the
aggregate object is the source itself. -/
def sample_bitmap_agg_info : AggregateInfo :=
  { agg_method := FieldAggregationMethod.OLAP_FIELD_AGGREGATION_BITMAP_UNION
    init := aggregate_state_init (fun src => src)
    update := fun dst _ => dst
    finalize := fun dst => dst }

/-- A `BitmapAggField` for examples. -/
def sample_bitmap_field : Field :=
  Field.mk
    { variant := Variant.BitmapAggField
      _name := "c0"
      _type_info := sample_type_info (FieldType.OTHER 24)
      _key_coder := sample_key_coder
      _agg_info := some sample_bitmap_agg_info
      _index_size := 16
      _length := 16
      _is_nullable := false }
    []

/-- A pool for examples whose blocks are filled with the byte 0xAA. -/
def sample_pool : MemPool := { fresh := fun _ => 170 }


/-- The value "abcdefg". -/
def abcdefg : List Byte := [97, 98, 99, 100, 101, 102, 103]

/-- The value "abcdefgh". -/
def abcdefgh : List Byte := [97, 98, 99, 100, 101, 102, 103, 104]

/-- The value "abcdefghij". -/
def abcdefghij : List Byte := [97, 98, 99, 100, 101, 102, 103, 104, 105, 106]


/-- A two-byte value with a zero byte first. -/
def zero_then_5 : List Byte := [0, 5]

/-- A nine-byte value with a zero byte first. -/
def zero_then_3 : List Byte := [0, 3, 1, 1, 1, 1, 1, 1, 1]

/-- A nine-byte value: a zero byte, then 1, then seven bytes 7. -/
def zero_then_1 : List Byte := [0, 1, 7, 7, 7, 7, 7, 7, 7]

/-- A nine-byte value: a zero byte, then 2, then seven bytes 7. -/
def zero_then_2 : List Byte := [0, 2, 7, 7, 7, 7, 7, 7, 7]

/-- A destination cell over a buffer of `n` bytes 0xEE. -/
def sample_dst (n : Nat) : Cell := { is_null := true, value := List.replicate n 238 }

/-! ## Auxiliary facts about the memory primitives -/

theorem to_size_t_natCast (k : Nat) (h : k < 2 ^ 64) : to_size_t (k : Int) = k := by
  unfold to_size_t
  omega

theorem strncmp_zero (l r : List Byte) : strncmp l r 0 = some 0 := by
  cases l <;> cases r <;> simp [strncmp]

/-- On equal initial segments `strncmp` reports equality (it may stop early, after a
NUL character). -/
theorem strncmp_of_take_eq (n : Nat) : ∀ (l r : List Byte), n ≤ l.length → n ≤ r.length →
    l.take n = r.take n → strncmp l r n = some 0 := by
  induction n with
  | zero => intro l r _ _ _; exact strncmp_zero l r
  | succ n ih =>
    intro l r hl hr h
    cases l with
    | nil => simp at hl
    | cons a l =>
      cases r with
      | nil => simp at hr
      | cons b r =>
        simp only [List.take_succ_cons, List.cons.injEq] at h
        simp only [List.length_cons, Nat.add_le_add_iff_right] at hl hr
        obtain ⟨hab, ht⟩ := h
        subst hab
        simp only [strncmp, ne_eq, not_true_eq_false, if_false]
        split
        · rfl
        · exact ih l r hl hr ht


theorem Field.index_size_lt (f : Field) : f.index_size < 65536 := f.attrs._index_size.isLt

/-- The truncating branch of `index_cmp`, with the budget as a natural number. -/
theorem index_cmp_truncating (slice_compare : List Byte → List Byte → Int) (f : Field)
    (a b : List Byte) (hty : f.type = FieldType.OLAP_FIELD_TYPE_VARCHAR)
    (hidx : 2 ≤ f.index_size) (hover : f.index_size - 2 < a.length ∨ f.index_size - 2 < b.length) :
    f.index_cmp slice_compare ⟨false, a⟩ ⟨false, b⟩ =
      match strncmp a b (min (min (f.index_size - 2) a.length) b.length) with
      | none => none
      | some res =>
        if res = 0 ∧ min (min (f.index_size - 2) a.length) b.length ≠ f.index_size - 2 then
          if a.length < b.length then some (-1)
          else if a.length > b.length then some 1
          else some 0
        else some res := by
  have hlt := f.index_size_lt
  have hc : min (min ((f.index_size : Int) - (2 : Int)) (a.length : Int)) (b.length : Int)
      = ((min (min (f.index_size - 2) a.length) b.length : Nat) : Int) := by omega
  have hs : to_size_t ((min (min (f.index_size - 2) a.length) b.length : Nat) : Int)
      = min (min (f.index_size - 2) a.length) b.length :=
    to_size_t_natCast _ (by omega)
  have hcond : b.length + 2 > f.index_size ∨ a.length + 2 > f.index_size := by omega
  have hne : (((min (min (f.index_size - 2) a.length) b.length : Nat) : Int)
      ≠ (f.index_size : Int) - (2 : Int)) ↔
      (min (min (f.index_size - 2) a.length) b.length ≠ f.index_size - 2) := by omega
  unfold Field.index_cmp
  simp only [hty, OLAP_STRING_MAX_BYTES, bne_self_eq_false, Bool.false_eq_true, if_false,
    if_true, hcond, Nat.cast_ofNat, hc, hs, hne]

/-- The non-truncating VARCHAR branch of `index_cmp`: both values fit the budget. -/
theorem index_cmp_fitting (slice_compare : List Byte → List Byte → Int) (f : Field)
    (a b : List Byte) (hty : f.type = FieldType.OLAP_FIELD_TYPE_VARCHAR)
    (ha : a.length + 2 ≤ f.index_size) (hb : b.length + 2 ≤ f.index_size) :
    f.index_cmp slice_compare ⟨false, a⟩ ⟨false, b⟩ = some (slice_compare a b) := by
  have hcond : ¬ (b.length + 2 > f.index_size ∨ a.length + 2 > f.index_size) := by omega
  unfold Field.index_cmp
  simp only [hty, OLAP_STRING_MAX_BYTES, bne_self_eq_false, Bool.false_eq_true, if_false,
    if_true, hcond]

/-! ## Short-key comparison of capped strings -/

/-- C1 (as stated, refuted): with `index_size = 10` the values "abcdefgh" and
"abcdefghij" agree on their first 8 bytes and differ in length, yet `index_cmp`
returns 0 for them instead of a negative number. -/
theorem index_cmp_tie_break_counterexample :
    abcdefgh.take (10 - 2) = abcdefghij.take (10 - 2) ∧ abcdefgh.length < abcdefghij.length ∧
    (sample_field Variant.VarcharField FieldType.OLAP_FIELD_TYPE_VARCHAR 10 20).index_cmp
      bytewise_cmp ⟨false, abcdefgh⟩ ⟨false, abcdefghij⟩ = some 0 := by
  decide

/-- C1 (amended): for a VARCHAR field with `index_size >= 2`, two non-null values
of different lengths whose first `index_size - 2` bytes are identical compare as
equal (`index_cmp` returns 0, the part beyond the budget is ignored); the shorter
value is ordered before the longer one when it has fewer than `index_size - 2` bytes,
the longer one has more than `index_size - 2` bytes and the shorter one is an initial
segment of the longer one (-1 with the shorter on the left, 1 with it on the right). -/
theorem index_cmp_tie_break (slice_compare : List Byte → List Byte → Int) (f : Field)
    (a b : List Byte) (hty : f.type = FieldType.OLAP_FIELD_TYPE_VARCHAR)
    (hidx : 2 ≤ f.index_size) :
    (a.take (f.index_size - 2) = b.take (f.index_size - 2) → a.length ≠ b.length →
      f.index_cmp slice_compare ⟨false, a⟩ ⟨false, b⟩ = some 0) ∧
    (a.length < f.index_size - 2 → f.index_size - 2 < b.length → b.take a.length = a →
      f.index_cmp slice_compare ⟨false, a⟩ ⟨false, b⟩ = some (-1) ∧
      f.index_cmp slice_compare ⟨false, b⟩ ⟨false, a⟩ = some 1) := by
  constructor
  · intro htake hlen
    have hl := congrArg List.length htake
    simp only [List.length_take] at hl
    have hover : f.index_size - 2 < a.length ∨ f.index_size - 2 < b.length := by omega
    have hmin : min (min (f.index_size - 2) a.length) b.length = f.index_size - 2 := by omega
    rw [index_cmp_truncating slice_compare f a b hty hidx hover, hmin,
      strncmp_of_take_eq _ a b (by omega) (by omega) htake]
    simp
  · intro ha hb htake
    have hmin : min (min (f.index_size - 2) a.length) b.length = a.length := by omega
    have hmin2 : min (min (f.index_size - 2) b.length) a.length = a.length := by omega
    have h1 : a.take a.length = b.take a.length := by rw [htake, List.take_length]
    constructor
    · rw [index_cmp_truncating slice_compare f a b hty hidx (Or.inr hb), hmin,
        strncmp_of_take_eq _ a b (by omega) (by omega) h1]
      have hne : a.length ≠ f.index_size - 2 := by omega
      have hlt : a.length < b.length := by omega
      simp [hne, hlt]
    · rw [index_cmp_truncating slice_compare f b a hty hidx (Or.inl hb), hmin2,
        strncmp_of_take_eq _ b a (by omega) (by omega) h1.symm]
      have hne : a.length ≠ f.index_size - 2 := by omega
      have hlt : ¬ b.length < a.length := by omega
      have hgt : b.length > a.length := by omega
      simp [hne, hlt, hgt]

/-- Witness of C1 (amended) with `index_size = 10`: "abcdefgh" against
"abcdefghij" gives 0, and "abcdefg" against "abcdefghij" gives -1 and 1. -/
theorem index_cmp_tie_break_witness :
    (sample_field Variant.VarcharField FieldType.OLAP_FIELD_TYPE_VARCHAR 10 20).index_cmp
      bytewise_cmp ⟨false, abcdefgh⟩ ⟨false, abcdefghij⟩ = some 0 ∧
    ((sample_field Variant.VarcharField FieldType.OLAP_FIELD_TYPE_VARCHAR 10 20).index_cmp
      bytewise_cmp ⟨false, abcdefg⟩ ⟨false, abcdefghij⟩ = some (-1) ∧
     (sample_field Variant.VarcharField FieldType.OLAP_FIELD_TYPE_VARCHAR 10 20).index_cmp
      bytewise_cmp ⟨false, abcdefghij⟩ ⟨false, abcdefg⟩ = some 1) :=
  ⟨(index_cmp_tie_break bytewise_cmp
      (sample_field Variant.VarcharField FieldType.OLAP_FIELD_TYPE_VARCHAR 10 20)
      abcdefgh abcdefghij rfl (by decide)).1 (by decide) (by decide),
   (index_cmp_tie_break bytewise_cmp
      (sample_field Variant.VarcharField FieldType.OLAP_FIELD_TYPE_VARCHAR 10 20)
      abcdefg abcdefghij rfl (by decide)).2 (by decide) (by decide) (by decide)⟩

/-- C2 (the code at the failing inputs): with `index_size = 10`, `index_cmp` puts the
value 00 05 before the value 00 03 01 01 01 01 01 01 01 although the truncated cells
order them the other way round, and it reports 00 01 07.. and 00 02 07.. as equal
although `to_index` stores different cells for them: `strncmp` stops at the zero
byte. -/
theorem index_cmp_zero_byte_divergence :
    (sample_field Variant.VarcharField FieldType.OLAP_FIELD_TYPE_VARCHAR 10 20).index_cmp
      bytewise_cmp ⟨false, zero_then_5⟩ ⟨false, zero_then_3⟩ = some (-1) ∧
    spec_index_order 10 zero_then_5 zero_then_3 = 1 ∧
    (sample_field Variant.VarcharField FieldType.OLAP_FIELD_TYPE_VARCHAR 10 20).index_cmp
      bytewise_cmp ⟨false, zero_then_1⟩ ⟨false, zero_then_2⟩ = some 0 ∧
    spec_index_order 10 zero_then_1 zero_then_2 = -1 ∧
    (sample_field Variant.VarcharField FieldType.OLAP_FIELD_TYPE_VARCHAR 10 20).to_index
      (sample_dst 10) ⟨false, zero_then_1⟩ ≠
    (sample_field Variant.VarcharField FieldType.OLAP_FIELD_TYPE_VARCHAR 10 20).to_index
      (sample_dst 10) ⟨false, zero_then_2⟩ := by
  decide

/-! ## `index_cmp` against the order of the truncated cells, zero bytes apart -/

/-- A byte-wise comparison is decided on the common length of its arguments, and by
their lengths when they agree there. -/
theorem bytewise_cmp_common : ∀ (x y : List Byte),
    bytewise_cmp x y =
      if bytewise_cmp (x.take (min x.length y.length)) (y.take (min x.length y.length)) ≠ 0 then
        bytewise_cmp (x.take (min x.length y.length)) (y.take (min x.length y.length))
      else if x.length < y.length then -1
      else if y.length < x.length then 1
      else 0
  | [], [] => by simp [bytewise_cmp]
  | [], _ :: _ => by simp [bytewise_cmp]
  | _ :: _, [] => by simp [bytewise_cmp]
  | a :: l, b :: r => by
    have ih := bytewise_cmp_common l r
    have hmin : min (a :: l).length (b :: r).length = min l.length r.length + 1 := by
      simp only [List.length_cons]
      omega
    rw [hmin]
    simp only [List.take_succ_cons, bytewise_cmp, List.length_cons, Nat.add_lt_add_iff_right]
    by_cases h1 : a < b
    · simp [h1]
    · by_cases h2 : b < a
      · simp [h1, h2]
      · simp only [h1, h2, if_false]
        exact ih

/-- Without a zero byte among the compared bytes of the left argument, `strncmp` has
the sign of the byte-wise comparison of the two initial segments. -/
theorem strncmp_sign (n : Nat) : ∀ (l r : List Byte), n ≤ l.length → n ≤ r.length →
    (∀ x ∈ l.take n, x ≠ 0) →
    ∃ d, strncmp l r n = some d ∧ Int.sign d = bytewise_cmp (l.take n) (r.take n) := by
  induction n with
  | zero =>
    intro l r _ _ _
    exact ⟨0, strncmp_zero l r, by simp [bytewise_cmp]⟩
  | succ n ih =>
    intro l r hl hr hz
    cases l with
    | nil => simp at hl
    | cons a l =>
      cases r with
      | nil => simp at hr
      | cons b r =>
        simp only [List.length_cons, Nat.add_le_add_iff_right] at hl hr
        simp only [List.take_succ_cons, List.mem_cons, forall_eq_or_imp] at hz
        obtain ⟨ha, hz⟩ := hz
        by_cases hab : a = b
        · subst hab
          obtain ⟨d, hd, hs⟩ := ih l r hl hr hz
          refine ⟨d, ?_, ?_⟩
          · simp [strncmp, ha, hd]
          · simp [bytewise_cmp, hs]
        · refine ⟨(a.val : Int) - (b.val : Int), by simp [strncmp, hab], ?_⟩
          simp only [List.take_succ_cons, bytewise_cmp]
          by_cases h1 : a < b
          · have : (a.val : Int) - (b.val : Int) < 0 := by
              have := Fin.lt_def.mp h1
              omega
            simp [h1, Int.sign_eq_neg_one_of_neg this]
          · have h2 : b < a := by
              rcases lt_trichotomy a b with h | h | h
              · exact absurd h h1
              · exact absurd h hab
              · exact h
            have : 0 < (a.val : Int) - (b.val : Int) := by
              have := Fin.lt_def.mp h2
              omega
            simp [h1, h2, Int.sign_eq_one_of_pos this]

/-- When the left value holds no zero byte and `Slice::compare` has the sign of the
byte-wise comparison, `index_cmp` on a VARCHAR field with `index_size >= 2` has the
sign of the order of the truncated cells. -/
theorem index_cmp_sign_of_no_zero (slice_compare : List Byte → List Byte → Int) (f : Field)
    (a b : List Byte) (hty : f.type = FieldType.OLAP_FIELD_TYPE_VARCHAR)
    (hidx : 2 ≤ f.index_size)
    (hsc : ∀ x y, Int.sign (slice_compare x y) = bytewise_cmp x y)
    (hz : ∀ x ∈ a, x ≠ 0) :
    ∃ res, f.index_cmp slice_compare ⟨false, a⟩ ⟨false, b⟩ = some res ∧
      Int.sign res = spec_index_order f.index_size a b := by
  by_cases hover : f.index_size - 2 < a.length ∨ f.index_size - 2 < b.length
  · obtain ⟨d, hd, hs⟩ := strncmp_sign (min (min (f.index_size - 2) a.length) b.length) a b
      (by omega) (by omega) (fun x hx => hz x (List.mem_of_mem_take hx))
    have hsplit := bytewise_cmp_common (spec_index_content f.index_size a)
      (spec_index_content f.index_size b)
    have hm : min (spec_index_content f.index_size a).length
        (spec_index_content f.index_size b).length
        = min (min (f.index_size - 2) a.length) b.length := by
      simp only [spec_index_content, List.length_take]
      omega
    have hta : (spec_index_content f.index_size a).take
        (min (min (f.index_size - 2) a.length) b.length)
        = a.take (min (min (f.index_size - 2) a.length) b.length) := by
      simp only [spec_index_content, List.take_take]
      congr 1
      omega
    have htb : (spec_index_content f.index_size b).take
        (min (min (f.index_size - 2) a.length) b.length)
        = b.take (min (min (f.index_size - 2) a.length) b.length) := by
      simp only [spec_index_content, List.take_take]
      congr 1
      omega
    have hla : (spec_index_content f.index_size a).length = min a.length (f.index_size - 2) := by
      simp only [spec_index_content, List.length_take]
      omega
    have hlb : (spec_index_content f.index_size b).length = min b.length (f.index_size - 2) := by
      simp only [spec_index_content, List.length_take]
      omega
    rw [hm, hta, htb, ← hs, hla, hlb] at hsplit
    rw [index_cmp_truncating slice_compare f a b hty hidx hover, hd]
    unfold spec_index_order
    rw [hsplit]
    by_cases hd0 : d = 0
    · subst hd0
      by_cases hc : min (min (f.index_size - 2) a.length) b.length = f.index_size - 2
      · refine ⟨0, by simp [hc], ?_⟩
        have h1 : ¬ (min a.length (f.index_size - 2) < min b.length (f.index_size - 2)) := by
          omega
        have h2 : ¬ (min b.length (f.index_size - 2) < min a.length (f.index_size - 2)) := by
          omega
        simp [h1, h2]
      · rcases Nat.lt_trichotomy a.length b.length with h | h | h
        · refine ⟨-1, ?_, ?_⟩
          · have hcond : True ∧
                min (min (f.index_size - 2) a.length) b.length ≠ f.index_size - 2 :=
              ⟨trivial, hc⟩
            simp only [if_pos hcond, if_pos h]
          · have h1 : min a.length (f.index_size - 2) < min b.length (f.index_size - 2) := by
              omega
            simp [h1]
        · exfalso
          omega
        · refine ⟨1, ?_, ?_⟩
          · have h0 : ¬ a.length < b.length := by omega
            have hcond : True ∧
                min (min (f.index_size - 2) a.length) b.length ≠ f.index_size - 2 :=
              ⟨trivial, hc⟩
            have hgt : a.length > b.length := h
            simp only [if_pos hcond, if_neg h0, if_pos hgt]
          · have h1 : ¬ (min a.length (f.index_size - 2) < min b.length (f.index_size - 2)) := by
              omega
            have h2 : min b.length (f.index_size - 2) < min a.length (f.index_size - 2) := by
              omega
            simp [h1, h2]
    · refine ⟨d, by simp [hd0], ?_⟩
      have hsd : Int.sign d ≠ 0 := by
        intro h
        exact hd0 (Int.sign_eq_zero_iff_zero.mp h)
      simp [hsd]
  · have ha : a.length + 2 ≤ f.index_size := by omega
    have hb : b.length + 2 ≤ f.index_size := by omega
    refine ⟨slice_compare a b, index_cmp_fitting slice_compare f a b hty ha hb, ?_⟩
    have hca : spec_index_content f.index_size a = a := by
      simp only [spec_index_content]
      exact List.take_of_length_le (by omega)
    have hcb : spec_index_content f.index_size b = b := by
      simp only [spec_index_content]
      exact List.take_of_length_le (by omega)
    rw [spec_index_order, hca, hcb]
    exact hsc a b

/-! ## Short-key cells -/

theorem memset_at_start (buf : List Byte) (c : Byte) (n : Nat) (h : n ≤ buf.length) :
    memset buf 0 c n = some (List.replicate n c ++ buf.drop n) := by
  simp [memset, h]

theorem memcpy_at (x y z src : List Byte) (off n : Nat) (hx : x.length = off)
    (hy : y.length = n) (hs : n ≤ src.length) :
    memcpy (x ++ (y ++ z)) off src n = some (x ++ (src.take n ++ z)) := by
  subst hx hy
  have h : x.length + y.length ≤ (x ++ (y ++ z)).length ∧ y.length ≤ src.length := by
    simp [hs]
  have hd : List.drop (x.length + y.length) (x ++ (y ++ z)) = z := by
    rw [← List.append_assoc, ← List.length_append, List.drop_left]
  simp only [memcpy, h, and_self, if_true, List.take_left, hd, List.append_assoc]

theorem memory_copy_at (x y z src : List Byte) (off n : Nat) (hx : x.length = off)
    (hy : y.length = n) (hs : n ≤ src.length) :
    memory_copy (x ++ (y ++ z)) off src n = some (x ++ (src.take n ++ z)) :=
  memcpy_at x y z src off n hx hy hs

theorem write_length_at (y z : List Byte) (n : Nat) (hy : y.length = 2) :
    write_length (y ++ z) n = some (store_length n ++ z) := by
  have h : 2 ≤ (y ++ z).length := by simp [hy]
  have hd : List.drop 2 (y ++ z) = z := by rw [← hy, List.drop_left]
  simp only [write_length, h, if_true, hd]

/-- C3: for a VARCHAR field with `index_size >= 2`, a non-null source value and a
destination buffer of at least `index_size` bytes, `to_index` marks the destination
non-null and fills the first `index_size` bytes of the buffer with the two-byte
little-endian length `c = min(L, index_size - 2)`, the first `c` bytes of the value
and zero bytes; the bytes of the buffer from offset `index_size` on are unchanged. -/
theorem to_index_varchar_layout (f : Field) (dst : Cell) (v : List Byte)
    (hty : f.type = FieldType.OLAP_FIELD_TYPE_VARCHAR) (hidx : 2 ≤ f.index_size)
    (hroom : f.index_size ≤ dst.value.length) :
    f.to_index dst ⟨false, v⟩ =
      some { is_null := false
             value :=
              ([Fin.ofNat (min v.length (f.index_size - 2) % 256),
                Fin.ofNat (min v.length (f.index_size - 2) / 256)] ++
               v.take (min v.length (f.index_size - 2)) ++
               List.replicate (f.index_size - 2 - min v.length (f.index_size - 2)) 0) ++
              dst.value.drop f.index_size } ∧
    ([Fin.ofNat (min v.length (f.index_size - 2) % 256),
      Fin.ofNat (min v.length (f.index_size - 2) / 256)] ++
      v.take (min v.length (f.index_size - 2)) ++
      List.replicate (f.index_size - 2 - min v.length (f.index_size - 2)) (0 : Byte)).length
      = f.index_size := by
  have hlt := f.index_size_lt
  have hb : to_size_t ((f.index_size : Int) - (2 : Int)) = f.index_size - 2 := by
    have h : (f.index_size : Int) - (2 : Int) = ((f.index_size - 2 : Nat) : Int) := by omega
    rw [h]
    exact to_size_t_natCast _ (by omega)
  have hcopy : (if v.length < f.index_size - 2 then v.length else f.index_size - 2)
      = min v.length (f.index_size - 2) := by
    split <;> omega
  generalize hc : min v.length (f.index_size - 2) = c at hcopy ⊢
  have hc1 : c ≤ v.length := by omega
  have hc2 : c ≤ f.index_size - 2 := by omega
  have hsplit : List.replicate f.index_size (0 : Byte) =
      List.replicate 2 0 ++ (List.replicate c 0 ++ List.replicate (f.index_size - 2 - c) 0) := by
    rw [← List.replicate_add, ← List.replicate_add]
    congr 1
    omega
  have hstore : store_length c = [Fin.ofNat (c % 256), Fin.ofNat (c / 256)] := by
    have h : c % 65536 = c := Nat.mod_eq_of_lt (by omega)
    simp only [store_length, h]
  constructor
  · unfold Field.to_index
    simp only [hty, Bool.false_eq_true, if_false, if_true, OLAP_STRING_MAX_BYTES,
      Nat.cast_ofNat, hb, hcopy, memset_at_start _ _ _ hroom, Option.bind_eq_bind,
      Option.some_bind]
    rw [hsplit, List.append_assoc, write_length_at _ _ _ (by simp), hstore]
    simp only [Option.some_bind]
    rw [List.append_assoc,
      memory_copy_at _ (List.replicate c 0) _ v 2 c (by simp) (by simp) hc1]
    simp [List.append_assoc]
  · simp only [List.length_append, List.length_cons, List.length_nil, List.length_take,
      List.length_replicate]
    omega

/-- Witness of C3: a VARCHAR field with `index_size = 10`, the value "abcdefghij"
and a 12-byte destination buffer. -/
theorem to_index_varchar_layout_witness :
    (sample_field Variant.VarcharField FieldType.OLAP_FIELD_TYPE_VARCHAR 10 20).to_index
      (sample_dst 12) ⟨false, abcdefghij⟩ =
      some { is_null := false
             value := [8, 0, 97, 98, 99, 100, 101, 102, 103, 104, 238, 238] } :=
  (to_index_varchar_layout
    (sample_field Variant.VarcharField FieldType.OLAP_FIELD_TYPE_VARCHAR 10 20)
    (sample_dst 12) abcdefghij rfl (by decide) (by decide)).1.trans (by decide)

/-- C4 (as stated, refuted): for a CHAR field with `index_size = 4` and the two-byte
value 01 02, `to_index` does not produce the cell 01 02 00 00: it copies 4 bytes from
the value, two of them past its end. -/
theorem to_index_char_counterexample :
    (sample_field Variant.CharField FieldType.OLAP_FIELD_TYPE_CHAR 4 5).to_index
      (sample_dst 6) ⟨false, [1, 2]⟩ = none ∧
    (sample_field Variant.CharField FieldType.OLAP_FIELD_TYPE_CHAR 4 5).to_index
      (sample_dst 6) ⟨false, [1, 2]⟩ ≠
      some { is_null := false, value := [1, 2, 0, 0, 238, 238] } := by
  decide

/-- C4 (amended): for a CHAR field, a non-null source value of at least `index_size`
bytes and a destination buffer of at least `index_size` bytes, `to_index` marks the
destination non-null and fills the first `index_size` bytes of the buffer with the
first `index_size` bytes of the value, reading nothing past the value; the bytes of
the buffer from offset `index_size` on are unchanged. -/
theorem to_index_char_truncates (f : Field) (dst : Cell) (v : List Byte)
    (hty : f.type = FieldType.OLAP_FIELD_TYPE_CHAR) (hlen : f.index_size ≤ v.length)
    (hroom : f.index_size ≤ dst.value.length) :
    f.to_index dst ⟨false, v⟩ =
      some { is_null := false
             value := v.take f.index_size ++ dst.value.drop f.index_size } ∧
    (v.take f.index_size).length = f.index_size := by
  constructor
  · unfold Field.to_index
    simp only [hty, Bool.false_eq_true, if_false, if_true, memset_at_start _ _ _ hroom,
      Option.bind_eq_bind, Option.some_bind, reduceCtorEq]
    have h := memory_copy_at [] (List.replicate f.index_size (0 : Byte))
      (dst.value.drop f.index_size) v 0 f.index_size rfl (by simp) hlen
    simp only [List.nil_append] at h
    rw [h]
    rfl
  · simp [List.length_take, hlen]

/-- Witness of C4 (amended): `index_size = 4`, the value "abcdefgh" and a 6-byte
destination buffer. -/
theorem to_index_char_truncates_witness :
    (sample_field Variant.CharField FieldType.OLAP_FIELD_TYPE_CHAR 4 8).to_index
      (sample_dst 6) ⟨false, abcdefgh⟩ =
      some { is_null := false, value := [97, 98, 99, 100, 238, 238] } :=
  (to_index_char_truncates
    (sample_field Variant.CharField FieldType.OLAP_FIELD_TYPE_CHAR 4 8)
    (sample_dst 6) abcdefgh rfl (by decide) (by decide)).1.trans (by decide)

/-! ## `CharField::consume` -/

theorem memset_at (x y z : List Byte) (off n : Nat) (c : Byte) (hx : x.length = off)
    (hy : y.length = n) :
    memset (x ++ (y ++ z)) off c n = some (x ++ (List.replicate n c ++ z)) := by
  subst hx hy
  have h : x.length + y.length ≤ (x ++ (y ++ z)).length := by simp
  have hd : List.drop (x.length + y.length) (x ++ (y ++ z)) = z := by
    rw [← List.append_assoc, ← List.length_append, List.drop_left]
  simp only [memset, h, if_true, List.take_left, hd, List.append_assoc]

theorem MemPool.length_allocate (pool : MemPool) (n : Nat) : (pool.allocate n).length = n := by
  simp [MemPool.allocate]

theorem Field.length_lt (f : Field) : f.length < 4294967296 := f.attrs._length.isLt

/-- C5 (as stated, refuted): a CHAR field of declared length 2 given the three-byte
source "abc" does not produce the two-byte value "ab": `memcpy` copies all three
bytes into the two-byte buffer. -/
theorem char_consume_counterexample :
    (sample_field Variant.CharField FieldType.OLAP_FIELD_TYPE_CHAR 2 2).consume
      (sample_dst 0) [97, 98, 99] false sample_pool = none ∧
    (sample_field Variant.CharField FieldType.OLAP_FIELD_TYPE_CHAR 2 2).consume
      (sample_dst 0) [97, 98, 99] false sample_pool ≠
      some { is_null := false, value := [97, 98] } := by
  decide

/-- C5 (amended): for a `CharField` of declared length `n`, `consume` of a null
source sets the null flag of the destination and leaves its payload as it was;
`consume` of a non-null source of at most `n` bytes leaves the destination non-null
with a value of exactly `n` bytes: the source followed by zero bytes, whatever the
allocated block held. -/
theorem char_consume_pads (f : Field) (dst : Cell) (src : List Byte) (pool : MemPool)
    (hv : f.variant = Variant.CharField) :
    f.consume dst src true pool = some { dst with is_null := true } ∧
    (src.length ≤ f.length →
      f.consume dst src false pool =
        some { is_null := false
               value := src ++ List.replicate (f.length - src.length) 0 } ∧
      (src ++ List.replicate (f.length - src.length) (0 : Byte)).length = f.length) := by
  constructor
  · simp [Field.consume, hv]
  · intro hlen
    have hlt := f.length_lt
    have hsz : to_size_t ((f.length : Int) - (src.length : Int)) = f.length - src.length := by
      have h : (f.length : Int) - (src.length : Int)
          = ((f.length - src.length : Nat) : Int) := by omega
      rw [h]
      exact to_size_t_natCast _ (by omega)
    constructor
    · have hA : pool.allocate f.length =
          [] ++ ((pool.allocate f.length).take src.length ++
            (pool.allocate f.length).drop src.length) := by
        simp
      have h1 := memcpy_at [] ((pool.allocate f.length).take src.length)
        ((pool.allocate f.length).drop src.length) src 0 src.length rfl
        (by simp [MemPool.length_allocate, hlen]) (Nat.le_refl _)
      rw [← hA] at h1
      have h2 := memset_at src ((pool.allocate f.length).drop src.length) [] src.length
        (f.length - src.length) 0 rfl (by simp [MemPool.length_allocate])
      simp only [List.nil_append, List.take_length, List.append_nil] at h1 h2
      simp only [Field.consume, hv, Bool.false_eq_true, if_false, h1, hsz,
        Option.bind_eq_bind, Option.some_bind, h2]
    · simp only [List.length_append, List.length_replicate]
      omega

/-- Witness of C5 (amended): declared length 5 and the source "ab" give "ab\0\0\0". -/
theorem char_consume_pads_witness :
    (sample_field Variant.CharField FieldType.OLAP_FIELD_TYPE_CHAR 5 5).consume
      (sample_dst 0) [97, 98] false sample_pool =
      some { is_null := false, value := [97, 98, 0, 0, 0] } :=
  ((char_consume_pads (sample_field Variant.CharField FieldType.OLAP_FIELD_TYPE_CHAR 5 5)
    (sample_dst 0) [97, 98] sample_pool rfl).2 (by decide)).1.trans (by decide)

/-! ## Null-aware comparison -/

/-- C6: `compare_cell` orders a null cell before a non-null cell (-1), a non-null
cell after a null cell (1), two null cells as equal (0), and two non-null cells as
the type comparator `compare` orders their bytes. -/
theorem compare_cell_null_ordering (f : Field) (x y : List Byte) :
    f.compare_cell ⟨true, x⟩ ⟨false, y⟩ = -1 ∧
    f.compare_cell ⟨false, x⟩ ⟨true, y⟩ = 1 ∧
    f.compare_cell ⟨true, x⟩ ⟨true, y⟩ = 0 ∧
    f.compare_cell ⟨false, x⟩ ⟨false, y⟩ = f.compare x y := by
  simp [Field.compare_cell, Field.compare]

/-- C7: `equal` is true exactly when both cells are null, or both are non-null and
the equality of the type holds on their bytes; so two null cells are equal, a null
and a non-null cell are not, and the bytes of a null cell do not influence the
result. -/
theorem equal_null_aware (f : Field) (lhs rhs : Cell) :
    (f.equal lhs rhs = true ↔
      (lhs.is_null = true ∧ rhs.is_null = true) ∨
      (lhs.is_null = false ∧ rhs.is_null = false ∧
        f.type_info.equal lhs.value rhs.value = true)) ∧
    (∀ x y : List Byte, f.equal ⟨true, x⟩ ⟨true, y⟩ = true) ∧
    (∀ x y : List Byte, f.equal ⟨true, x⟩ ⟨false, y⟩ = false) ∧
    (∀ x y : List Byte, f.equal ⟨false, x⟩ ⟨true, y⟩ = false) ∧
    (∀ x y : List Byte, f.equal ⟨true, x⟩ rhs = f.equal ⟨true, y⟩ rhs ∧
      f.equal lhs ⟨true, x⟩ = f.equal lhs ⟨true, y⟩) := by
  refine ⟨?_, ?_, ?_, ?_, ?_⟩
  · cases hl : lhs.is_null <;> cases hr : rhs.is_null <;> simp [Field.equal, hl, hr]
  · intro x y; simp [Field.equal]
  · intro x y; simp [Field.equal]
  · intro x y; simp [Field.equal]
  · intro x y
    constructor
    · cases hr : rhs.is_null <;> simp [Field.equal, hr]
    · cases hl : lhs.is_null <;> simp [Field.equal, hl]

/-- C8: `index_cmp` returns what `compare_cell` returns whenever a cell is null or
the physical type is not VARCHAR; for a VARCHAR field and two non-null values whose
lengths plus the two bytes of overhead do not exceed `index_size` it returns the
`Slice::compare` of the two whole values. -/
theorem index_cmp_only_truncates_varchar (slice_compare : List Byte → List Byte → Int)
    (f : Field) (lhs rhs : Cell) :
    (lhs.is_null = true ∨ rhs.is_null = true ∨ f.type ≠ FieldType.OLAP_FIELD_TYPE_VARCHAR →
      f.index_cmp slice_compare lhs rhs = some (f.compare_cell lhs rhs)) ∧
    (f.type = FieldType.OLAP_FIELD_TYPE_VARCHAR → lhs.is_null = false → rhs.is_null = false →
      lhs.value.length + 2 ≤ f.index_size → rhs.value.length + 2 ≤ f.index_size →
      f.index_cmp slice_compare lhs rhs = some (slice_compare lhs.value rhs.value)) := by
  constructor
  · intro h
    cases hl : lhs.is_null <;> cases hr : rhs.is_null
    · have hty : f.type ≠ FieldType.OLAP_FIELD_TYPE_VARCHAR := by
        rcases h with h | h | h
        · simp [hl] at h
        · simp [hr] at h
        · exact h
      simp [Field.index_cmp, Field.compare_cell, hl, hr, hty]
    · simp [Field.index_cmp, Field.compare_cell, hl, hr]
    · simp [Field.index_cmp, Field.compare_cell, hl, hr]
    · simp [Field.index_cmp, Field.compare_cell, hl, hr]
  · intro hty hl hr ha hb
    obtain ⟨ln, lv⟩ := lhs
    obtain ⟨rn, rv⟩ := rhs
    simp only at hl hr ha hb
    subst hl hr
    exact index_cmp_fitting slice_compare f lv rv hty ha hb

/-- Witness of C8: a null cell against "abcdefg" on a VARCHAR field, two non-null
cells on a field of another type, and "abcdefg" against "abcdefgh" on a VARCHAR field
with `index_size = 10`. -/
theorem index_cmp_only_truncates_varchar_witness :
    (sample_field Variant.VarcharField FieldType.OLAP_FIELD_TYPE_VARCHAR 10 20).index_cmp
      bytewise_cmp ⟨true, []⟩ ⟨false, abcdefg⟩ = some (-1) ∧
    (sample_field Variant.Field (FieldType.OTHER 7) 4 4).index_cmp
      bytewise_cmp ⟨false, abcdefghij⟩ ⟨false, abcdefg⟩ = some 1 ∧
    (sample_field Variant.VarcharField FieldType.OLAP_FIELD_TYPE_VARCHAR 10 20).index_cmp
      bytewise_cmp ⟨false, abcdefg⟩ ⟨false, abcdefgh⟩ = some (-1) :=
  ⟨((index_cmp_only_truncates_varchar bytewise_cmp
      (sample_field Variant.VarcharField FieldType.OLAP_FIELD_TYPE_VARCHAR 10 20)
      ⟨true, []⟩ ⟨false, abcdefg⟩).1 (Or.inl rfl)).trans (by decide),
   ((index_cmp_only_truncates_varchar bytewise_cmp
      (sample_field Variant.Field (FieldType.OTHER 7) 4 4)
      ⟨false, abcdefghij⟩ ⟨false, abcdefg⟩).1 (Or.inr (Or.inr (by decide)))).trans (by decide),
   ((index_cmp_only_truncates_varchar bytewise_cmp
      (sample_field Variant.VarcharField FieldType.OLAP_FIELD_TYPE_VARCHAR 10 20)
      ⟨false, abcdefg⟩ ⟨false, abcdefgh⟩).2 rfl rfl rfl (by decide) (by decide)).trans
      (by decide)⟩

/-! ## `clone` -/

mutual
theorem Field.classes_clone : ∀ f : Field, f.clone.classes = f.classes
  | .mk a subs => by
    simp only [Field.clone, Field.classes]
    rw [Field.classes_clone_sub_fields subs]
theorem Field.classes_clone_sub_fields : ∀ l : List Field,
    Field.classes_of_sub_fields (Field.clone_sub_fields l) = Field.classes_of_sub_fields l
  | [] => by simp [Field.clone_sub_fields]
  | f :: fs => by
    simp only [Field.clone_sub_fields, Field.classes_of_sub_fields]
    rw [Field.classes_clone f, Field.classes_clone_sub_fields fs]
end

/-- C9 (the code at the failing input): the clone of a `CharField` of declared
length 5 whose aggregation method is NONE has declared length 0 and no
`AggregateInfo`; `consume` of "ab" gives "ab\0\0\0" on the field and has no defined
result on its clone. -/
theorem clone_loses_length_and_agg_info :
    (sample_field Variant.CharField FieldType.OLAP_FIELD_TYPE_CHAR 5 5).length = 5 ∧
    (sample_field Variant.CharField FieldType.OLAP_FIELD_TYPE_CHAR 5 5).clone.length = 0 ∧
    (sample_field Variant.CharField FieldType.OLAP_FIELD_TYPE_CHAR 5 5).aggregation =
      some FieldAggregationMethod.OLAP_FIELD_AGGREGATION_NONE ∧
    (sample_field Variant.CharField FieldType.OLAP_FIELD_TYPE_CHAR 5 5).clone.aggregation =
      none ∧
    (sample_field Variant.CharField FieldType.OLAP_FIELD_TYPE_CHAR 5 5).consume
      (sample_dst 0) [97, 98] false sample_pool =
      some { is_null := false, value := [97, 98, 0, 0, 0] } ∧
    (sample_field Variant.CharField FieldType.OLAP_FIELD_TYPE_CHAR 5 5).clone.consume
      (sample_dst 0) [97, 98] false sample_pool = none := by
  decide

/-- A call of `clone` on an object whose first sub-field pointer is null has no
defined result: the loop calls through the pointer. -/
theorem Heap.clone_null_sub_field (n : Nat) (h : Heap) (this : Nat) (obj : FieldObject)
    (rest : List (Option Addr)) (ho : h[this]? = some obj)
    (hs : obj._sub_fields = none :: rest) : Heap.clone (n + 1) h this = none := by
  simp [Heap.clone, ho, hs, Heap.clone_sub_fields]

mutual
theorem FieldFactory.create_defined (env : Registry) : ∀ c : TabletColumn,
    c.has_element_columns = true → ∃ p, FieldFactory.create env c = some p
  | .mk m subs => by
    intro h
    obtain ⟨name, type, is_key, agg, nullable, il, len, pr, sc⟩ := m
    have hsub : type = FieldType.OLAP_FIELD_TYPE_ARRAY →
        ∃ p, FieldFactory.create_sub_column_0 env subs = some p := by
      intro ht
      subst ht
      simp only [TabletColumn.has_element_columns, if_true] at h
      exact FieldFactory.create_sub_column_0_defined env subs h
    cases is_key <;> cases type <;> cases agg <;>
      first
      | exact ⟨_, by simp [FieldFactory.create]; rfl⟩
      | (obtain ⟨p, hp⟩ := hsub rfl
         exact ⟨_, by simp [FieldFactory.create, hp, FieldPtr.new_field,
           FieldPtr.add_sub_field]; rfl⟩)
theorem FieldFactory.create_sub_column_0_defined (env : Registry) : ∀ l : List TabletColumn,
    TabletColumn.sub_column_0_has_element_columns l = true →
    ∃ p, FieldFactory.create_sub_column_0 env l = some p
  | [] => by
    intro h
    simp [TabletColumn.sub_column_0_has_element_columns] at h
  | c :: _ => by
    intro h
    simp only [TabletColumn.sub_column_0_has_element_columns] at h
    simpa [FieldFactory.create_sub_column_0] using FieldFactory.create_defined env c h
end

/-- C11: for a column that carries the sub-columns the factory asks for, `create`
returns a null pointer exactly when the column is a value column whose aggregation
method is UNKNOWN or no enumerator at all; for every other such column (every key
column, every value column with a recognised method) it returns a `Field` object. -/
theorem create_fails_exactly_on_unknown_aggregation (env : Registry) (c : TabletColumn)
    (h : c.has_element_columns = true) :
    (FieldFactory.create env c = some FieldPtr.nullptr ↔
      (c.is_key = false ∧
        (c.aggregation = FieldAggregationMethod.OLAP_FIELD_AGGREGATION_UNKNOWN ∨
          ∃ v, c.aggregation = FieldAggregationMethod.OUT_OF_RANGE v))) ∧
    (¬ (c.is_key = false ∧
        (c.aggregation = FieldAggregationMethod.OLAP_FIELD_AGGREGATION_UNKNOWN ∨
          ∃ v, c.aggregation = FieldAggregationMethod.OUT_OF_RANGE v)) →
      ∃ attrs subs, FieldFactory.create env c = some (FieldPtr.object attrs subs)) := by
  obtain ⟨m, subs⟩ := c
  obtain ⟨name, type, is_key, agg, nullable, il, len, pr, sc⟩ := m
  have hsub : type = FieldType.OLAP_FIELD_TYPE_ARRAY →
      ∃ p, FieldFactory.create_sub_column_0 env subs = some p := by
    intro ht
    subst ht
    simp only [TabletColumn.has_element_columns, if_true] at h
    exact FieldFactory.create_sub_column_0_defined env subs h
  cases is_key <;> cases type <;> cases agg <;>
    solve
    | simp [FieldFactory.create, TabletColumn.is_key, TabletColumn.aggregation,
        TabletColumn.info, FieldPtr.new_field, FieldPtr.new_decimal_field]
    | (obtain ⟨p, hp⟩ := hsub rfl
       simp [FieldFactory.create, TabletColumn.is_key, TabletColumn.aggregation,
        TabletColumn.info, FieldPtr.new_field, FieldPtr.add_sub_field, hp])

/-- Witness of C11: a key column of an ordinary type with the aggregation UNKNOWN
yields an object, a value column with the aggregation UNKNOWN a null pointer. -/
theorem create_fails_exactly_on_unknown_aggregation_witness :
    (∃ attrs subs, FieldFactory.create sample_registry
      (sample_column (FieldType.OTHER 5) true
        FieldAggregationMethod.OLAP_FIELD_AGGREGATION_UNKNOWN []) =
      some (FieldPtr.object attrs subs)) ∧
    FieldFactory.create sample_registry
      (sample_column (FieldType.OTHER 5) false
        FieldAggregationMethod.OLAP_FIELD_AGGREGATION_UNKNOWN []) = some FieldPtr.nullptr :=
  ⟨(create_fails_exactly_on_unknown_aggregation sample_registry
      (sample_column (FieldType.OTHER 5) true
        FieldAggregationMethod.OLAP_FIELD_AGGREGATION_UNKNOWN []) rfl).2
      (fun hk => absurd hk.1 (by decide)),
   (create_fails_exactly_on_unknown_aggregation sample_registry
      (sample_column (FieldType.OTHER 5) false
        FieldAggregationMethod.OLAP_FIELD_AGGREGATION_UNKNOWN []) rfl).1.mpr
      ⟨rfl, Or.inl rfl⟩⟩

theorem FieldFactory.create_sub_column_0_eq (env : Registry) (subs : List TabletColumn) :
    FieldFactory.create_sub_column_0 env subs = (subs[0]?).bind (FieldFactory.create env) := by
  cases subs <;> simp [FieldFactory.create_sub_column_0]

/-- C13: on a value column `create` returns an `HllAggField` when the aggregation
method is HLL_UNION, a `BitmapAggField` when it is BITMAP_UNION and a
`PercentileAggField` when it is PERCENTILE_UNION, whatever the physical type. -/
theorem create_aggregate_state_dispatch (env : Registry) (c : TabletColumn)
    (hk : c.is_key = false) :
    (c.aggregation = FieldAggregationMethod.OLAP_FIELD_AGGREGATION_HLL_UNION →
      FieldFactory.create env c =
        some (FieldPtr.object
          (FieldAttrs.of_column env Variant.HllAggField c (env.get_type_info_of_column c))
          [])) ∧
    (c.aggregation = FieldAggregationMethod.OLAP_FIELD_AGGREGATION_BITMAP_UNION →
      FieldFactory.create env c =
        some (FieldPtr.object
          (FieldAttrs.of_column env Variant.BitmapAggField c (env.get_type_info_of_column c))
          [])) ∧
    (c.aggregation = FieldAggregationMethod.OLAP_FIELD_AGGREGATION_PERCENTILE_UNION →
      FieldFactory.create env c =
        some (FieldPtr.object
          (FieldAttrs.of_column env Variant.PercentileAggField c
            (env.get_type_info_of_column c)) [])) := by
  obtain ⟨m, subs⟩ := c
  obtain ⟨name, type, is_key, agg, nullable, il, len, pr, sc⟩ := m
  simp only [TabletColumn.is_key, TabletColumn.info] at hk
  subst hk
  cases agg <;>
    simp [FieldFactory.create, TabletColumn.aggregation, TabletColumn.info, FieldPtr.new_field]

/-- Witness of C13: value columns of type DECIMAL32 with the three aggregation
methods. -/
theorem create_aggregate_state_dispatch_witness :
    (FieldFactory.create sample_registry
      (sample_column FieldType.OLAP_FIELD_TYPE_DECIMAL32 false
        FieldAggregationMethod.OLAP_FIELD_AGGREGATION_HLL_UNION [])).map FieldPtr.variant =
      some (some Variant.HllAggField) ∧
    (FieldFactory.create sample_registry
      (sample_column FieldType.OLAP_FIELD_TYPE_DECIMAL32 false
        FieldAggregationMethod.OLAP_FIELD_AGGREGATION_BITMAP_UNION [])).map FieldPtr.variant =
      some (some Variant.BitmapAggField) ∧
    (FieldFactory.create sample_registry
      (sample_column FieldType.OLAP_FIELD_TYPE_DECIMAL32 false
        FieldAggregationMethod.OLAP_FIELD_AGGREGATION_PERCENTILE_UNION [])).map
        FieldPtr.variant =
      some (some Variant.PercentileAggField) :=
  ⟨congrArg (Option.map FieldPtr.variant)
      ((create_aggregate_state_dispatch sample_registry
        (sample_column FieldType.OLAP_FIELD_TYPE_DECIMAL32 false
          FieldAggregationMethod.OLAP_FIELD_AGGREGATION_HLL_UNION []) rfl).1 rfl),
   congrArg (Option.map FieldPtr.variant)
      ((create_aggregate_state_dispatch sample_registry
        (sample_column FieldType.OLAP_FIELD_TYPE_DECIMAL32 false
          FieldAggregationMethod.OLAP_FIELD_AGGREGATION_BITMAP_UNION []) rfl).2.1 rfl),
   congrArg (Option.map FieldPtr.variant)
      ((create_aggregate_state_dispatch sample_registry
        (sample_column FieldType.OLAP_FIELD_TYPE_DECIMAL32 false
          FieldAggregationMethod.OLAP_FIELD_AGGREGATION_PERCENTILE_UNION []) rfl).2.2 rfl)⟩

/-- What `create` hangs below the object it returns: nothing, or, for a column of type
ARRAY, the one pointer that `create` returned for the sub-column 0. -/
theorem FieldFactory.create_sub_fields (env : Registry) (c : TabletColumn) (a : FieldAttrs)
    (subs : List FieldPtr) (h : FieldFactory.create env c = some (FieldPtr.object a subs)) :
    subs = [] ∨
    (c.type = FieldType.OLAP_FIELD_TYPE_ARRAY ∧
      ∃ sub_column item_field, c.get_sub_column 0 = some sub_column ∧
        FieldFactory.create env sub_column = some item_field ∧ subs = [item_field]) := by
  obtain ⟨m, cols⟩ := c
  obtain ⟨name, type, is_key, agg, nullable, il, len, pr, sc⟩ := m
  cases is_key <;> cases type <;> cases agg <;>
    solve
    | (simp [FieldFactory.create, FieldPtr.new_field, FieldPtr.new_decimal_field] at h
       obtain ⟨_, rfl⟩ := h
       exact Or.inl rfl)
    | simp [FieldFactory.create] at h
    | (right
       cases hs : cols[0]? with
       | none =>
         simp [FieldFactory.create, FieldFactory.create_sub_column_0_eq, hs] at h
       | some sub =>
         cases hc : FieldFactory.create env sub with
         | none =>
           simp [FieldFactory.create, FieldFactory.create_sub_column_0_eq, hs, hc] at h
         | some item =>
           simp [FieldFactory.create, FieldFactory.create_sub_column_0_eq, hs, hc,
             FieldPtr.new_field, FieldPtr.add_sub_field] at h
           obtain ⟨_, rfl⟩ := h
           exact ⟨rfl, sub, item, by simpa [TabletColumn.get_sub_column,
             TabletColumn._sub_columns] using hs, hc, rfl⟩)

/-- C14 (the code at the failing input): for a key column of type ARRAY whose
sub-column 0 is a value column with the aggregation UNKNOWN, `create` returns a base
`Field` with one sub-field pointer, and that pointer is null, as `create` returns a
null pointer for the sub-column. -/
theorem create_array_null_sub_field :
    (FieldFactory.create sample_registry
      (sample_column (FieldType.OTHER 5) false
        FieldAggregationMethod.OLAP_FIELD_AGGREGATION_UNKNOWN [])).map FieldPtr.is_null =
      some true ∧
    (FieldFactory.create sample_registry
      (sample_column FieldType.OLAP_FIELD_TYPE_ARRAY true
        FieldAggregationMethod.OLAP_FIELD_AGGREGATION_NONE
        [sample_column (FieldType.OTHER 5) false
          FieldAggregationMethod.OLAP_FIELD_AGGREGATION_UNKNOWN []])).map
      (fun p => (p.variant, p.sub_fields.map FieldPtr.is_null, p.valid)) =
      some (some Variant.Field, [true], false) := by
  decide


/-! ## `convert_to` -/

/-- C15 (the code at the failing input): `convert_to` of a `CharField` of declared
length 5 with the aggregation NONE to a fixed-length type returns OK and a field of
that type, with its key coder, the size of the type as index size and the name and
nullability of the field, but of declared length 0 and without `AggregateInfo`. -/
theorem convert_to_loses_length_and_agg_info :
    ((sample_field Variant.CharField FieldType.OLAP_FIELD_TYPE_CHAR 5 5).convert_to
      sample_registry (FieldType.OTHER 5)).1 = Status.OK ∧
    ((sample_field Variant.CharField FieldType.OLAP_FIELD_TYPE_CHAR 5 5).convert_to
      sample_registry (FieldType.OTHER 5)).2.type = FieldType.OTHER 5 ∧
    ((sample_field Variant.CharField FieldType.OLAP_FIELD_TYPE_CHAR 5 5).convert_to
      sample_registry (FieldType.OTHER 5)).2.index_size = 16 ∧
    ((sample_field Variant.CharField FieldType.OLAP_FIELD_TYPE_CHAR 5 5).convert_to
      sample_registry (FieldType.OTHER 5)).2.name = "c0" ∧
    ((sample_field Variant.CharField FieldType.OLAP_FIELD_TYPE_CHAR 5 5).convert_to
      sample_registry (FieldType.OTHER 5)).2.is_nullable = true ∧
    (sample_field Variant.CharField FieldType.OLAP_FIELD_TYPE_CHAR 5 5).length = 5 ∧
    ((sample_field Variant.CharField FieldType.OLAP_FIELD_TYPE_CHAR 5 5).convert_to
      sample_registry (FieldType.OTHER 5)).2.length = 0 ∧
    (sample_field Variant.CharField FieldType.OLAP_FIELD_TYPE_CHAR 5 5).aggregation =
      some FieldAggregationMethod.OLAP_FIELD_AGGREGATION_NONE ∧
    ((sample_field Variant.CharField FieldType.OLAP_FIELD_TYPE_CHAR 5 5).convert_to
      sample_registry (FieldType.OTHER 5)).2.aggregation = none := by
  decide

/-- C16 (as stated, refuted): `convert_to` with the target type VARCHAR returns the
status OK, and produces a field of type VARCHAR whose index size is the size of its
`TypeInfo`. -/
theorem convert_to_varchar_counterexample :
    ((sample_field Variant.Field (FieldType.OTHER 5) 4 4).convert_to
      sample_registry FieldType.OLAP_FIELD_TYPE_VARCHAR).1 = Status.OK ∧
    ((sample_field Variant.Field (FieldType.OTHER 5) 4 4).convert_to
      sample_registry FieldType.OLAP_FIELD_TYPE_VARCHAR).1 ≠ Status.Error ∧
    ((sample_field Variant.Field (FieldType.OTHER 5) 4 4).convert_to
      sample_registry FieldType.OLAP_FIELD_TYPE_VARCHAR).2.type =
      FieldType.OLAP_FIELD_TYPE_VARCHAR ∧
    ((sample_field Variant.Field (FieldType.OTHER 5) 4 4).convert_to
      sample_registry FieldType.OLAP_FIELD_TYPE_VARCHAR).2.index_size = 16 := by
  decide

theorem Field.clone_attrs (f : Field) :
    f.clone.attrs =
      { variant := f.attrs.variant
        _type_info := f.attrs._type_info
        _key_coder := f.attrs._key_coder
        _name := f.attrs._name
        _index_size := f.attrs._index_size
        _is_nullable := f.attrs._is_nullable
        _agg_info := none
        _length := 0 } := by
  obtain ⟨a, subs⟩ := f
  rfl

/-- C16 (amended): `convert_to` checks nothing about the target type: for every field
and every target type, fixed-length or not, it returns the status OK and produces a
field of the class, name and nullability of the field, with the `TypeInfo` and the
`KeyCoder` that the registries give for the target type and the size of that
`TypeInfo` (as a 16-bit number) as index size. -/
theorem convert_to_never_rejects (env : Registry) (f : Field) (type : FieldType) :
    (f.convert_to env type).1 = Status.OK ∧
    (f.convert_to env type).2.type_info = env.get_type_info type ∧
    (f.convert_to env type).2.key_coder = env.get_key_coder type ∧
    (f.convert_to env type).2.index_size = (env.get_type_info type).size % 65536 ∧
    (f.convert_to env type).2.variant = f.variant ∧
    (f.convert_to env type).2.name = f.name ∧
    (f.convert_to env type).2.is_nullable = f.is_nullable := by
  have hc := f.clone_attrs
  obtain ⟨a, subs⟩ := f
  simp only [Field.attrs] at hc
  simp [Field.convert_to, Field.type_info, Field.key_coder, Field.index_size, Field.variant,
    Field.name, Field.is_nullable, Field.attrs, hc, Fin.ofNat]


/-! ## Aggregate-state fields -/

/-- C17: for a `BitmapAggField` whose `AggregateInfo` initialises as the
specification says of aggregate-state methods, `agg_init` from a source cell whose
null flag is set yields a destination cell whose null flag is not set. -/
theorem bitmap_agg_init_not_null (f : Field) (a : AggregateInfo)
    (state : List Byte → List Byte) (dst : Cell) (v : List Byte)
    (hv : f.variant = Variant.BitmapAggField) (ha : f.agg_info = some a)
    (hinit : a.init = aggregate_state_init state) :
    f.agg_init dst ⟨true, v⟩ = some { is_null := false, value := state v } ∧
    (f.agg_init dst ⟨true, v⟩).map Cell.is_null = some false := by
  simp [Field.agg_init, hv, ha, hinit, aggregate_state_init]

/-- Witness of C17: the sample `BitmapAggField` and a null source cell. -/
theorem bitmap_agg_init_not_null_witness :
    (sample_bitmap_field.agg_init (sample_dst 0) ⟨true, [1, 2]⟩).map Cell.is_null =
      some false :=
  (bitmap_agg_init_not_null sample_bitmap_field sample_bitmap_agg_info (fun src => src)
    (sample_dst 0) [1, 2] rfl rfl rfl).2

/-- C18: `agg_init` of an `HllAggField` and of a `PercentileAggField` is
`AggregateInfo::init` with the null flag false, so it gives the same for two source
cells that differ in the null flag only; `agg_init` of a `BitmapAggField` is
`AggregateInfo::init` with the null flag of the source cell; for none of the three
does the result depend on the `TypeInfo`, whose `direct_copy` makes the result for the
other classes. -/
theorem agg_init_null_flag (a : FieldAttrs) (subs : List Field) (dst src : Cell) :
    (a.variant = Variant.HllAggField ∨ a.variant = Variant.PercentileAggField →
      (Field.mk a subs).agg_init dst src =
        a._agg_info.map (fun info => info.init dst src.value false) ∧
      ∀ n : Bool, (Field.mk a subs).agg_init dst ⟨n, src.value⟩ =
        (Field.mk a subs).agg_init dst src) ∧
    (a.variant = Variant.BitmapAggField →
      (Field.mk a subs).agg_init dst src =
        a._agg_info.map (fun info => info.init dst src.value src.is_null)) ∧
    (a.variant = Variant.HllAggField ∨ a.variant = Variant.PercentileAggField ∨
        a.variant = Variant.BitmapAggField →
      ∀ type_info : TypeInfo,
        (Field.mk { a with _type_info := type_info } subs).agg_init dst src =
          (Field.mk a subs).agg_init dst src) ∧
    (a.variant = Variant.Field ∨ a.variant = Variant.CharField ∨
        a.variant = Variant.VarcharField →
      (Field.mk a subs).agg_init dst src = some ((Field.mk a subs).direct_copy dst src)) := by
  refine ⟨?_, ?_, ?_, ?_⟩
  · intro h
    rcases h with h | h <;>
      simp [Field.agg_init, Field.variant, Field.attrs, Field.agg_info, h]
  · intro h
    simp [Field.agg_init, Field.variant, Field.attrs, Field.agg_info, h]
  · intro h type_info
    rcases h with h | h | h <;>
      simp [Field.agg_init, Field.variant, Field.attrs, Field.agg_info, h]
  · intro h
    rcases h with h | h | h <;>
      simp [Field.agg_init, Field.variant, Field.attrs, h]

/-- Witness of C18: an `HllAggField` gives a non-null destination for a null source
cell with the sample `AggregateInfo` (which takes over the flag it is given), a
`BitmapAggField` a null one. -/
theorem agg_init_null_flag_witness :
    (sample_field Variant.HllAggField (FieldType.OTHER 23) 16 16).agg_init (sample_dst 0)
      ⟨true, [1, 2]⟩ = some { is_null := false, value := [1, 2] } ∧
    (sample_field Variant.BitmapAggField (FieldType.OTHER 24) 16 16).agg_init (sample_dst 0)
      ⟨true, [1, 2]⟩ = some { is_null := true, value := [1, 2] } :=
  ⟨((agg_init_null_flag (sample_field Variant.HllAggField (FieldType.OTHER 23) 16 16).attrs []
      (sample_dst 0) ⟨true, [1, 2]⟩).1 (Or.inl rfl)).1.trans (by decide),
   ((agg_init_null_flag (sample_field Variant.BitmapAggField (FieldType.OTHER 24) 16 16).attrs
      [] (sample_dst 0) ⟨true, [1, 2]⟩).2.1 rfl).trans (by decide)⟩

/-! ## `hash_code` -/

/-- C19: the hash code of a null cell is the hash of the one byte of the null marker
`true` under the seed, whatever the bytes of the cell and whatever the field; the
hash code of a non-null cell is the hash the type gives its bytes under the seed; so,
when the hash of the type agrees on values the type holds equal, two cells that
`equal` holds equal have the same hash code. -/
theorem hash_code_null_aware (hash : List Byte → Nat → Nat) (f : Field) (seed : Nat) :
    (∀ v : List Byte, f.hash_code hash ⟨true, v⟩ seed = hash [1] seed) ∧
    (∀ (g : Field) (v w : List Byte),
      f.hash_code hash ⟨true, v⟩ seed = g.hash_code hash ⟨true, w⟩ seed) ∧
    (∀ v : List Byte, f.hash_code hash ⟨false, v⟩ seed = f.type_info.hash_code v seed) ∧
    ((∀ x y : List Byte, f.type_info.equal x y = true →
        f.type_info.hash_code x seed = f.type_info.hash_code y seed) →
      ∀ a b : Cell, f.equal a b = true → f.hash_code hash a seed = f.hash_code hash b seed) := by
  refine ⟨?_, ?_, ?_, ?_⟩
  · intro v; simp [Field.hash_code]
  · intro g v w; simp [Field.hash_code]
  · intro v; simp [Field.hash_code]
  · intro hh a b hab
    obtain ⟨an, av⟩ := a
    obtain ⟨bn, bv⟩ := b
    cases an <;> cases bn <;> simp [Field.equal] at hab <;> simp [Field.hash_code]
    exact hh av bv hab

/-- Witness of C19: two equal non-null cells of the sample type, whose hash (seed plus
length) agrees on equal values. -/
theorem hash_code_null_aware_witness :
    (sample_field Variant.Field (FieldType.OTHER 5) 4 4).hash_code (fun v s => s + v.length)
      ⟨false, abcdefg⟩ 7 =
    (sample_field Variant.Field (FieldType.OTHER 5) 4 4).hash_code (fun v s => s + v.length)
      ⟨false, abcdefg⟩ 7 :=
  (hash_code_null_aware (fun v s => s + v.length)
    (sample_field Variant.Field (FieldType.OTHER 5) 4 4) 7).2.2.2
    (fun x y hxy => by
      have h : x = y := by simpa [Field.type_info, sample_field, sample_type_info, Field.attrs]
        using hxy
      rw [h])
    ⟨false, abcdefg⟩ ⟨false, abcdefg⟩ (by decide)

/-! ## Reservation of the variable-length region -/

theorem to_uint32_natCast (k : Nat) (h : k < 2 ^ 32) : to_uint32 (k : Int) = k := by
  unfold to_uint32
  omega

/-- C20: for every class `allocate_memory` returns `variable_ptr` advanced by
`get_variable_len()`; that is the declared length for a `CharField`, the declared
length minus 2 for a `VarcharField` of declared length at least 2, and 0 for the base
class and the three aggregate-state classes; a `CharField` and a `VarcharField` set
the slice to start at `variable_ptr` with that size, the aggregate-state classes set
its data pointer to null, and the base class leaves the cell as it is. -/
theorem allocate_memory_reserves (f : Field) (slice : Slice) (variable_ptr : Nat) :
    (f.allocate_memory slice variable_ptr).2 = variable_ptr + f.get_variable_len ∧
    (f.variant = Variant.CharField →
      f.get_variable_len = f.length ∧
      (f.allocate_memory slice variable_ptr).1 =
        { data := some variable_ptr, size := f.length }) ∧
    (f.variant = Variant.VarcharField → 2 ≤ f.length →
      f.get_variable_len = f.length - 2 ∧
      (f.allocate_memory slice variable_ptr).1 =
        { data := some variable_ptr, size := f.length - 2 }) ∧
    (f.variant = Variant.Field →
      f.get_variable_len = 0 ∧ (f.allocate_memory slice variable_ptr).1 = slice) ∧
    (f.variant = Variant.BitmapAggField ∨ f.variant = Variant.HllAggField ∨
        f.variant = Variant.PercentileAggField →
      f.get_variable_len = 0 ∧
      (f.allocate_memory slice variable_ptr).1 = { slice with data := none } ∧
      (f.allocate_memory slice variable_ptr).2 = variable_ptr) := by
  refine ⟨?_, ?_, ?_, ?_, ?_⟩
  · cases hv : f.variant <;> simp [Field.allocate_memory, Field.get_variable_len, hv]
  · intro hv
    simp [Field.allocate_memory, Field.get_variable_len, hv]
  · intro hv hlen
    have hlt := f.length_lt
    have h : to_uint32 ((f.length : Int) - (OLAP_STRING_MAX_BYTES : Int)) = f.length - 2 := by
      have h2 : (f.length : Int) - (OLAP_STRING_MAX_BYTES : Int)
          = ((f.length - 2 : Nat) : Int) := by
        simp only [OLAP_STRING_MAX_BYTES]
        omega
      rw [h2]
      exact to_uint32_natCast _ (by omega)
    simp [Field.allocate_memory, Field.get_variable_len, hv, h]
  · intro hv
    simp [Field.allocate_memory, Field.get_variable_len, hv]
  · intro hv
    rcases hv with hv | hv | hv <;>
      simp [Field.allocate_memory, Field.get_variable_len, hv]

/-- Witness of C20: a `CharField` of declared length 8, a `VarcharField` of declared
length 10 and an `HllAggField`, with `variable_ptr = 1000`. -/
theorem allocate_memory_reserves_witness :
    (sample_field Variant.CharField FieldType.OLAP_FIELD_TYPE_CHAR 8 8).allocate_memory
      ⟨none, 0⟩ 1000 = (⟨some 1000, 8⟩, 1008) ∧
    (sample_field Variant.VarcharField FieldType.OLAP_FIELD_TYPE_VARCHAR 10 10).allocate_memory
      ⟨none, 0⟩ 1000 = (⟨some 1000, 8⟩, 1008) ∧
    (sample_field Variant.HllAggField (FieldType.OTHER 23) 16 16).allocate_memory
      ⟨some 5, 7⟩ 1000 = (⟨none, 7⟩, 1000) :=
  ⟨Prod.ext
      (((allocate_memory_reserves
        (sample_field Variant.CharField FieldType.OLAP_FIELD_TYPE_CHAR 8 8)
        ⟨none, 0⟩ 1000).2.1 rfl).2.trans (by decide))
      (by decide),
   Prod.ext
      (((allocate_memory_reserves
        (sample_field Variant.VarcharField FieldType.OLAP_FIELD_TYPE_VARCHAR 10 10)
        ⟨none, 0⟩ 1000).2.2.1 rfl (by decide)).2.trans (by decide))
      (by decide),
   Prod.ext
      (((allocate_memory_reserves
        (sample_field Variant.HllAggField (FieldType.OTHER 23) 16 16)
        ⟨some 5, 7⟩ 1000).2.2.2.2 (Or.inr (Or.inl rfl))).2.1.trans (by decide))
      (by decide)⟩


/-! ## Maximum of a string value -/

/-- C21: on the value that `allocate_value` reserves (a block of as many bytes as the
declared length), `set_to_max` of a `CharField` of declared length `n` sets the size
to `n` and all `n` bytes to 0xFF, and `set_to_max` of a `VarcharField` of declared
length `n >= 2` sets the size to `n - 2` and these `n - 2` bytes to 0xFF, leaving the
last two bytes of the block as they were; in both cases the block keeps its `n`
bytes, so nothing is written past it. -/
theorem set_to_max_string (f : Field) (pool : MemPool) :
    (f.variant = Variant.CharField →
      f.set_to_max (f.allocate_value pool) =
        some (ValueStorage.string f.length (List.replicate f.length 255))) ∧
    (f.variant = Variant.VarcharField → 2 ≤ f.length →
      f.set_to_max (f.allocate_value pool) =
        some (ValueStorage.string (f.length - 2)
          (List.replicate (f.length - 2) 255 ++
            (pool.allocate f.length).drop (f.length - 2))) ∧
      (List.replicate (f.length - 2) (255 : Byte) ++
        (pool.allocate f.length).drop (f.length - 2)).length = f.length) := by
  constructor
  · intro hv
    have h := memset_at_start (pool.allocate f.length) 255 f.length
      (by simp [MemPool.length_allocate])
    have hd : (pool.allocate f.length).drop f.length = [] :=
      List.drop_eq_nil_of_le (by simp [MemPool.length_allocate])
    simp [Field.set_to_max, Field.allocate_value, Field.allocate_string_value, hv, h, hd]
  · intro hv hlen
    have hlt := f.length_lt
    have hs : to_uint32 ((f.length : Int) - (OLAP_STRING_MAX_BYTES : Int)) = f.length - 2 := by
      have h2 : (f.length : Int) - (OLAP_STRING_MAX_BYTES : Int)
          = ((f.length - 2 : Nat) : Int) := by
        simp only [OLAP_STRING_MAX_BYTES]
        omega
      rw [h2]
      exact to_uint32_natCast _ (by omega)
    have h := memset_at_start (pool.allocate f.length) 255 (f.length - 2)
      (by simp [MemPool.length_allocate])
    constructor
    · simp [Field.set_to_max, Field.allocate_value, Field.allocate_string_value, hv, hs, h]
    · simp only [List.length_append, List.length_replicate, List.length_drop,
        MemPool.length_allocate]
      omega

/-- Witness of C21: a `CharField` of declared length 3 and a `VarcharField` of
declared length 5 with the sample pool. -/
theorem set_to_max_string_witness :
    (sample_field Variant.CharField FieldType.OLAP_FIELD_TYPE_CHAR 3 3).set_to_max
      ((sample_field Variant.CharField FieldType.OLAP_FIELD_TYPE_CHAR 3 3).allocate_value
        sample_pool) = some (ValueStorage.string 3 [255, 255, 255]) ∧
    (sample_field Variant.VarcharField FieldType.OLAP_FIELD_TYPE_VARCHAR 5 5).set_to_max
      ((sample_field Variant.VarcharField FieldType.OLAP_FIELD_TYPE_VARCHAR 5 5).allocate_value
        sample_pool) = some (ValueStorage.string 3 [255, 255, 255, 170, 170]) :=
  ⟨((set_to_max_string (sample_field Variant.CharField FieldType.OLAP_FIELD_TYPE_CHAR 3 3)
      sample_pool).1 rfl).trans (by decide),
   ((set_to_max_string (sample_field Variant.VarcharField FieldType.OLAP_FIELD_TYPE_VARCHAR 5 5)
      sample_pool).2 rfl (by decide)).1.trans (by decide)⟩

/-! ## Key encoding -/

/-- C23: for a VARCHAR field with `index_size >= 2` and two non-null values of at
least `index_size - 2` bytes, one of them longer, that agree on their first
`index_size - 2` bytes, `index_cmp` returns 0, whatever follows these bytes. -/
theorem index_cmp_ignores_beyond_budget (slice_compare : List Byte → List Byte → Int)
    (f : Field) (a b : List Byte) (hty : f.type = FieldType.OLAP_FIELD_TYPE_VARCHAR)
    (hidx : 2 ≤ f.index_size)
    (hover : f.index_size - 2 < a.length ∨ f.index_size - 2 < b.length)
    (ha : f.index_size - 2 ≤ a.length) (hb : f.index_size - 2 ≤ b.length)
    (htake : a.take (f.index_size - 2) = b.take (f.index_size - 2)) :
    f.index_cmp slice_compare ⟨false, a⟩ ⟨false, b⟩ = some 0 := by
  have hmin : min (min (f.index_size - 2) a.length) b.length = f.index_size - 2 := by omega
  rw [index_cmp_truncating slice_compare f a b hty hidx hover, hmin,
    strncmp_of_take_eq _ a b ha hb htake]
  simp

/-- Witness of C23: `index_size = 10`, "abcdefghij" against "abcdefgh". -/
theorem index_cmp_ignores_beyond_budget_witness :
    (sample_field Variant.VarcharField FieldType.OLAP_FIELD_TYPE_VARCHAR 10 20).index_cmp
      bytewise_cmp ⟨false, abcdefghij⟩ ⟨false, abcdefgh⟩ = some 0 :=
  index_cmp_ignores_beyond_budget bytewise_cmp
    (sample_field Variant.VarcharField FieldType.OLAP_FIELD_TYPE_VARCHAR 10 20)
    abcdefghij abcdefgh rfl (by decide) (by decide) (by decide) (by decide) (by decide)

/-- Exchanging the arguments of `strncmp` negates its result. -/
theorem strncmp_swap (n : Nat) : ∀ (l r : List Byte),
    strncmp r l n = (strncmp l r n).map fun d => -d := by
  induction n with
  | zero => intro l r; simp [strncmp_zero]
  | succ n ih =>
    intro l r
    cases l with
    | nil => cases r <;> simp [strncmp]
    | cons a l =>
      cases r with
      | nil => simp [strncmp]
      | cons b r =>
        by_cases hab : a = b
        · subst hab
          by_cases h0 : a = 0
          · simp [strncmp, h0]
          · simp [strncmp, h0, ih l r]
        · have hba : ¬ b = a := fun h => hab h.symm
          simp [strncmp, hab, hba]

/-- Within both arguments `strncmp` has a result. -/
theorem strncmp_defined (n : Nat) : ∀ (l r : List Byte), n ≤ l.length → n ≤ r.length →
    ∃ d, strncmp l r n = some d := by
  induction n with
  | zero => intro l r _ _; exact ⟨0, strncmp_zero l r⟩
  | succ n ih =>
    intro l r hl hr
    cases l with
    | nil => simp at hl
    | cons a l =>
      cases r with
      | nil => simp at hr
      | cons b r =>
        simp only [List.length_cons, Nat.add_le_add_iff_right] at hl hr
        obtain ⟨d, hd⟩ := ih l r hl hr
        by_cases hab : a = b
        · subst hab
          by_cases h0 : a = 0
          · exact ⟨0, by simp [strncmp, h0]⟩
          · exact ⟨d, by simp [strncmp, h0, hd]⟩
        · exact ⟨(a.val : Int) - (b.val : Int), by simp [strncmp, hab]⟩

/-- Exchanging the arguments of the byte-wise comparison negates its result. -/
theorem bytewise_cmp_swap : ∀ (x y : List Byte), bytewise_cmp y x = -bytewise_cmp x y
  | [], [] => by simp [bytewise_cmp]
  | [], _ :: _ => by simp [bytewise_cmp]
  | _ :: _, [] => by simp [bytewise_cmp]
  | a :: l, b :: r => by
    have ih := bytewise_cmp_swap l r
    simp only [bytewise_cmp]
    by_cases h1 : a < b
    · have h2 : ¬ b < a := not_lt_of_lt h1
      simp [h1, h2]
    · by_cases h2 : b < a
      · simp [h1, h2]
      · simp [h1, h2, ih]

theorem Int.sign_zero_of_antisymmetric (x : Int) (h : Int.sign x = -Int.sign x) : x = 0 := by
  have h0 : Int.sign x = 0 := by omega
  exact Int.sign_eq_zero_iff_zero.mp h0

/-- C24: for a VARCHAR field with `index_size >= 2` (with a `Slice::compare` whose sign
changes when its arguments are exchanged), and for a field of any other type whose
comparator has that property, `index_cmp` has a result on all cells, null or not, its
sign changes when the cells are exchanged, and a cell compares as equal to itself. -/
theorem index_cmp_antisymmetric (slice_compare : List Byte → List Byte → Int) (f : Field)
    (a b : Cell)
    (h : (f.type = FieldType.OLAP_FIELD_TYPE_VARCHAR ∧ 2 ≤ f.index_size ∧
          ∀ x y, Int.sign (slice_compare x y) = -Int.sign (slice_compare y x)) ∨
         (f.type ≠ FieldType.OLAP_FIELD_TYPE_VARCHAR ∧
          ∀ x y, Int.sign (f.type_info.cmp x y) = -Int.sign (f.type_info.cmp y x))) :
    (∃ r s, f.index_cmp slice_compare a b = some r ∧ f.index_cmp slice_compare b a = some s ∧
      Int.sign r = -Int.sign s) ∧
    f.index_cmp slice_compare a a = some 0 := by
  obtain ⟨an, av⟩ := a
  obtain ⟨bn, bv⟩ := b
  have key : ∀ x y : List Byte,
      ∃ r s, f.index_cmp slice_compare ⟨false, x⟩ ⟨false, y⟩ = some r ∧
        f.index_cmp slice_compare ⟨false, y⟩ ⟨false, x⟩ = some s ∧ Int.sign r = -Int.sign s := by
    intro x y
    rcases h with ⟨hty, hidx, hsc⟩ | ⟨hty, hcmp⟩
    · by_cases hover : f.index_size - 2 < x.length ∨ f.index_size - 2 < y.length
      · have hover2 : f.index_size - 2 < y.length ∨ f.index_size - 2 < x.length := hover.symm
        have hn : min (min (f.index_size - 2) y.length) x.length
            = min (min (f.index_size - 2) x.length) y.length := by omega
        obtain ⟨d, hd⟩ := strncmp_defined (min (min (f.index_size - 2) x.length) y.length) x y
          (by omega) (by omega)
        have hd2 : strncmp y x (min (min (f.index_size - 2) x.length) y.length) = some (-d) := by
          rw [strncmp_swap _ x y, hd]
          rfl
        rw [index_cmp_truncating slice_compare f x y hty hidx hover,
          index_cmp_truncating slice_compare f y x hty hidx hover2, hn, hd, hd2]
        by_cases hd0 : d = 0
        · subst hd0
          by_cases hc : min (min (f.index_size - 2) x.length) y.length = f.index_size - 2
          · exact ⟨0, 0, by simp [hc], by simp [hc], by simp⟩
          · have hcond : True ∧
                min (min (f.index_size - 2) x.length) y.length ≠ f.index_size - 2 :=
              ⟨trivial, hc⟩
            rcases Nat.lt_trichotomy x.length y.length with hl | hl | hl
            · have h1 : ¬ y.length < x.length := by omega
              have h2 : y.length > x.length := hl
              refine ⟨-1, 1, ?_, ?_, by simp⟩
              · simp only [if_pos hcond, if_pos hl]
              · simp only [neg_zero, if_pos hcond, if_neg h1, if_pos h2]
            · have h1 : ¬ x.length < y.length := by omega
              have h2 : ¬ x.length > y.length := by omega
              have h3 : ¬ y.length < x.length := by omega
              have h4 : ¬ y.length > x.length := by omega
              refine ⟨0, 0, ?_, ?_, by simp⟩
              · simp only [if_pos hcond, if_neg h1, if_neg h2]
              · simp only [neg_zero, if_pos hcond, if_neg h3, if_neg h4]
            · have h1 : ¬ x.length < y.length := by omega
              have h2 : x.length > y.length := hl
              refine ⟨1, -1, ?_, ?_, by simp⟩
              · simp only [if_pos hcond, if_neg h1, if_pos h2]
              · simp only [neg_zero, if_pos hcond, if_pos hl]
        · have hd1 : ¬ -d = 0 := by omega
          exact ⟨d, -d, by simp [hd0], by simp [hd0], by simp [Int.sign_neg]⟩
      · have hx : x.length + 2 ≤ f.index_size := by omega
        have hy : y.length + 2 ≤ f.index_size := by omega
        exact ⟨_, _, index_cmp_fitting slice_compare f x y hty hx hy,
          index_cmp_fitting slice_compare f y x hty hy hx, hsc x y⟩
    · exact ⟨_, _, by simp [Field.index_cmp, hty], by simp [Field.index_cmp, hty], hcmp x y⟩
  constructor
  · cases an <;> cases bn
    · exact key av bv
    · exact ⟨1, -1, by simp [Field.index_cmp], by simp [Field.index_cmp], by simp⟩
    · exact ⟨-1, 1, by simp [Field.index_cmp], by simp [Field.index_cmp], by simp⟩
    · exact ⟨0, 0, by simp [Field.index_cmp], by simp [Field.index_cmp], by simp⟩
  · cases an
    · obtain ⟨r, s, hr, hs, hrs⟩ := key av av
      have hrs2 : r = s := by
        rw [hr] at hs
        exact Option.some.inj hs
      subst hrs2
      rw [hr, Int.sign_zero_of_antisymmetric r hrs]
    · simp [Field.index_cmp]

/-- Witness of C24: `index_size = 10`, "abcdefg" against "abcdefghij" and back, with
the byte-wise comparison as `Slice::compare`. -/
theorem index_cmp_antisymmetric_witness :
    (∃ r s,
      (sample_field Variant.VarcharField FieldType.OLAP_FIELD_TYPE_VARCHAR 10 20).index_cmp
        bytewise_cmp ⟨false, abcdefg⟩ ⟨false, abcdefghij⟩ = some r ∧
      (sample_field Variant.VarcharField FieldType.OLAP_FIELD_TYPE_VARCHAR 10 20).index_cmp
        bytewise_cmp ⟨false, abcdefghij⟩ ⟨false, abcdefg⟩ = some s ∧
      Int.sign r = -Int.sign s) ∧
    (sample_field Variant.VarcharField FieldType.OLAP_FIELD_TYPE_VARCHAR 10 20).index_cmp
      bytewise_cmp ⟨false, abcdefg⟩ ⟨false, abcdefg⟩ = some 0 :=
  index_cmp_antisymmetric bytewise_cmp
    (sample_field Variant.VarcharField FieldType.OLAP_FIELD_TYPE_VARCHAR 10 20)
    ⟨false, abcdefg⟩ ⟨false, abcdefghij⟩
    (Or.inl ⟨rfl, by decide, fun x y => by rw [bytewise_cmp_swap y x, Int.sign_neg]⟩)

end starrocks
